import Mathlib

/-! # WKT parser of `proj/wkt.go`

A shallow embedding of the Well-Known-Text parser of package `proj`.

* A Go string is a sequence of bytes; it is modelled as a `List Char`, each
  element standing for one byte, so that an offset in the list is the byte
  offset of the Go code.  The input alphabet of the parser is ASCII, on which
  `strings.ToLower` is the ASCII lower-casing used here.
* Go `int` offsets are `Int` (a text is far shorter than `2^63`), so that the
  `-1` of `strings.Index` and a negative nesting counter are represented.
* `float64` is an abstract type `F`; `strconv.ParseFloat`, multiplication,
  `math.IsNaN` and the package constant `deg2rad` are the fields of `Float64`.
* A method on `*SR` mutates the record and returns an `error`; it is modelled
  as a function from the record to `Run (SR F × Option WKTError)`: the record
  after the call together with the returned error (`none` is `nil`), or a
  run-time panic.
* The recursion of `parseWKTSection` is driven by a fuel argument; `wkt`
  supplies more fuel than the recursion can use (`parseWKTSection_fuel`).
-/

namespace Proj

set_option maxRecDepth 100000

/-- A Go string: a sequence of bytes. -/
abbrev Str := List Char

/-! ## The parts of package `strings` the parser uses -/

namespace Strings

/-- Go `strings.HasPrefix`. -/
def HasPrefix (s pre : Str) : Bool := pre.isPrefixOf s

/-- Go `strings.HasSuffix`. -/
def HasSuffix (s suf : Str) : Bool := suf.isSuffixOf s

/-- Go `strings.Index`: offset of the first occurrence of `sub`, or `-1`. -/
def Index : Str → Str → Int
  | [], sub => if sub = [] then 0 else -1
  | c :: cs, sub =>
    if HasPrefix (c :: cs) sub then 0
    else
      let r := Index cs sub
      if r < 0 then -1 else r + 1

/-- Go `strings.Contains`, which is `Index(s, sub) >= 0`. -/
def Contains (s sub : Str) : Bool := decide (0 ≤ Index s sub)

/-- Go `strings.LastIndex`: offset of the last occurrence of `sub`, or `-1`. -/
def LastIndex : Str → Str → Int
  | [], sub => if sub = [] then 0 else -1
  | c :: cs, sub =>
    let r := LastIndex cs sub
    if 0 ≤ r then r + 1
    else if HasPrefix (c :: cs) sub then 0 else -1

/-- Go `strings.TrimSuffix`. -/
def TrimSuffix (s suf : Str) : Str :=
  if HasSuffix s suf then s.take (s.length - suf.length) else s

/-- Go `strings.Trim(s, cutset)`: leading and trailing bytes of the cutset
are removed. -/
def Trim (s cutset : Str) : Str :=
  ((s.dropWhile (fun c => decide (c ∈ cutset))).reverse.dropWhile
    (fun c => decide (c ∈ cutset))).reverse

/-- Go `strings.Split(s, sep)` for a one-byte separator: the fields between
the separators, one more than there are separators. -/
def Split : Str → Char → List Str
  | [], _ => [[]]
  | c :: cs, sep =>
    if c = sep then [] :: Split cs sep
    else
      match Split cs sep with
      | [] => [[c]]
      | f :: fs => (c :: f) :: fs

/-- Scan of `strings.Replace(s, old, new, -1)` for a non-empty `old`:
`skip` counts the bytes of an occurrence still to be passed over. -/
def replaceGo (old new : Str) : Nat → Str → Str
  | _, [] => []
  | skip + 1, _ :: cs => replaceGo old new skip cs
  | 0, c :: cs =>
    if HasPrefix (c :: cs) old then new ++ replaceGo old new (old.length - 1) cs
    else c :: replaceGo old new 0 cs

/-- Go `strings.Replace(s, old, new, -1)` for a non-empty `old`: every
non-overlapping occurrence, from the left, is replaced. -/
def Replace (s old new : Str) : Str := replaceGo old new 0 s

/-- ASCII lower-casing of one byte. -/
def lowerByte (c : Char) : Char :=
  if 65 ≤ c.toNat ∧ c.toNat ≤ 90 then Char.ofNat (c.toNat + 32) else c

/-- Go `strings.ToLower` on ASCII text. -/
def ToLower (s : Str) : Str := s.map lowerByte

end Strings

open Strings

/-! ## Outcomes -/

/-- A Go run-time panic raised by the parser. -/
inductive Panic where
  /-- slice bounds out of range -/
  | sliceBounds
  /-- index out of range -/
  | indexRange
  deriving DecidableEq, Repr

/-- The outcome of running a piece of the parser: it returned, it panicked,
or the fuel of the model ran out. -/
inductive Run (α : Type) where
  | ret (a : α)
  | panic (p : Panic)
  | exhausted
  deriving DecidableEq, Repr

/-- Sequencing of outcomes. -/
def Run.bind {α β : Type} (x : Run α) (f : α → Run β) : Run β :=
  match x with
  | .ret a => f a
  | .panic p => .panic p
  | .exhausted => .exhausted

instance : Monad Run where
  pure := Run.ret
  bind := Run.bind

/-- The slice expression `s[lo:hi]`; it panics unless `0 ≤ lo ≤ hi ≤ len(s)`. -/
def slice (s : Str) (lo hi : Int) : Run Str :=
  if 0 ≤ lo ∧ lo ≤ hi ∧ hi ≤ (s.length : Int) then
    .ret ((s.drop lo.toNat).take (hi.toNat - lo.toNat))
  else .panic .sliceBounds

/-- The index expression `a[i]` on a slice of strings. -/
def index (a : List Str) (i : Int) : Run Str :=
  if 0 ≤ i then
    match a.get? i.toNat with
    | some x => .ret x
    | none => .panic .indexRange
  else .panic .indexRange

/-- The errors built by `fmt.Errorf` in `wkt.go`, one constructor for each
call site, carrying the value formatted into the message. -/
inductive WKTError where
  /-- "proj.parseWKTProjCS: unknown WKT section %v" -/
  | unknownProjCS (secName : List Str)
  /-- "proj.parseWKTGeoCS: unknown WKT section %v" -/
  | unknownGeoCS (secName : List Str)
  /-- "proj.parseWKTDatum: unknown WKT section %v" -/
  | unknownDatum (secName : List Str)
  /-- "in proj.parseWKTSpheroid a: '%v'", for the text that failed to parse -/
  | spheroidA (field : Str)
  /-- "in proj.parseWKTSpheroid rf: '%v'", for the text that failed to parse -/
  | spheroidRf (field : Str)
  /-- "in proj.parseWKTParameter: %v", for the text that failed to parse -/
  | parameterValue (field : Str)
  /-- "proj.parseWKTParameter: unknown name %v" -/
  | parameterName (name : Str)
  /-- "in proj.parseWTKPrimeM: prime meridian is %s but only greenwich is supported" -/
  | primeM (name : Str)
  /-- "in proj.parseWKTUnit: %v", for the text that failed to parse -/
  | unitValue (field : Str)
  /-- "proj: malformed WKT section '%s'" -/
  | malformed (secData : Str)
  /-- "proj: unknown WKT section name '%s'" -/
  | unknownName (secName : List Str)
  deriving DecidableEq, Repr

/-! ## The record and the numeric environment -/

/-- Modelled from the spec: the declaration of type `SR` is not among the
sources.  The fields are those `wkt.go` reads or writes (section 3 of the
specification); `F` is `float64`. -/
structure SR (F : Type) where
  SRSCode : Str
  Name : Str
  DatumCode : Str
  Ellps : Str
  Units : Str
  A : F
  Rf : F
  B : F
  Lat0 : F
  Lat1 : F
  Lat2 : F
  LongC : F
  Long0 : F
  Alpha : F
  X0 : F
  Y0 : F
  K0 : F
  ToMeter : F
  sphere : Bool
  local_ : Bool
  deriving DecidableEq, Repr

/-- The `float64` operations the parser relies on.  `ParseFloat s` is
`strconv.ParseFloat(s, 64)`: the value it returns and whether its error is
non-nil.  `deg2rad` is the package constant of that name. -/
structure Float64 (F : Type) where
  ParseFloat : Str → F × Bool
  mul : F → F → F
  IsNaN : F → Bool
  deg2rad : F

variable {F : Type}

/-- The result of a method on `*SR`: the record after the call and the
returned error. -/
abbrev Res (F : Type) := Run (SR F × Option WKTError)

/-! ## `wkt.go` -/

/-- Go `splitWKTName`. -/
def splitWKTName (secData : Str) : Run (Str × Str) :=
  let comma := Index secData [',']
  (slice secData 0 comma).bind fun name =>
  (slice secData (comma + 1) secData.length).bind fun data =>
  .ret (name, data)

/-- Go `stringInArray`. -/
def stringInArray (s : Str) : List Str → Bool
  | [] => false
  | aa :: a => if aa = s then true else stringInArray s a

/-- Go `(*SR).datumRename`. -/
def datumRename (sr : SR F) : Run (SR F) :=
  (slice sr.DatumCode 0 2).bind fun p =>
  (if p = "d_".toList then
      (slice sr.DatumCode 2 sr.DatumCode.length).bind fun r =>
        .ret { sr with DatumCode := r }
    else .ret sr).bind fun sr =>
  let sr :=
    if sr.DatumCode = "new_zealand_geodetic_datum_1949".toList ∨
        sr.DatumCode = "new_zealand_1949".toList then
      { sr with DatumCode := "nzgd49".toList }
    else sr
  let sr :=
    if sr.DatumCode = "wgs_1984".toList then
      let sr :=
        if sr.Name = "Mercator_Auxiliary_Sphere".toList then { sr with sphere := true }
        else sr
      { sr with DatumCode := "wgs84".toList }
    else sr
  let sr :=
    if HasSuffix sr.DatumCode "_ferro".toList then
      { sr with DatumCode := TrimSuffix sr.DatumCode "_ferro".toList }
    else sr
  let sr :=
    if HasSuffix sr.DatumCode "_jakarta".toList then
      { sr with DatumCode := TrimSuffix sr.DatumCode "_jakarta".toList }
    else sr
  let sr :=
    if Contains sr.DatumCode "belge".toList then
      { sr with DatumCode := "rnb72".toList }
    else sr
  .ret sr

/-- Go `(*SR).parseWKTSpheroid`. -/
def parseWKTSpheroid (E : Float64 F) (_secName : List Str) (secData : Str)
    (sr : SR F) : Res F :=
  let d := Split secData ','
  (index d 0).bind fun d0 =>
  let sr := { sr with Ellps := Replace d0 "_19".toList [] }
  let sr := { sr with Ellps := Replace sr.Ellps "clarke_18".toList "clrk".toList }
  let sr := { sr with Ellps := Replace sr.Ellps "Clarke_18".toList "clrk".toList }
  (if 13 ≤ sr.Ellps.length then
      (slice sr.Ellps 0 13).bind fun p =>
        .ret (if ToLower p = "international".toList then
                { sr with Ellps := "intl".toList } else sr)
    else .ret sr).bind fun sr =>
  (index d 1).bind fun d1 =>
  let a := E.ParseFloat d1
  if a.2 then .ret (sr, some (.spheroidA d1))
  else
    let sr := { sr with A := a.1 }
    (index d 2).bind fun d2 =>
    let rf := E.ParseFloat d2
    let sr := { sr with Rf := rf.1 }
    if rf.2 then .ret (sr, some (.spheroidRf d2))
    else
      let sr :=
        if Contains sr.DatumCode "osgb_1936".toList then
          { sr with DatumCode := "osgb36".toList }
        else sr
      let sr := { sr with B := if E.IsNaN sr.B then sr.A else sr.B }
      .ret (sr, none)

/-- Go `(*SR).parseWKTProjection`. -/
def parseWKTProjection (_secName : List Str) (secData : Str) (sr : SR F) : SR F :=
  { sr with Name := secData }

/-- Go `d2r`. -/
def d2r (E : Float64 F) (input : F) : F := E.mul input E.deg2rad

/-- Go `(*SR).toMeter`. -/
def toMeter (E : Float64 F) (sr : SR F) (input : F) : F := E.mul sr.ToMeter input

/-- Go `(*SR).parseWKTParameter`. -/
def parseWKTParameter (E : Float64 F) (_secName : List Str) (secData : Str)
    (sr : SR F) : Res F :=
  let v := Split secData ','
  (index v 0).bind fun v0 =>
  let name := Trim (ToLower v0) ['"']
  (index v 1).bind fun v1 =>
  let r := E.ParseFloat v1
  let val := r.1
  if r.2 then .ret (sr, some (.parameterValue v1))
  else if name = "standard_parallel_1".toList then
    .ret ({ sr with Lat0 := d2r E val, Lat1 := d2r E val }, none)
  else if name = "standard_parallel_2".toList then
    .ret ({ sr with Lat2 := d2r E val }, none)
  else if name = "false_easting".toList then
    .ret ({ sr with X0 := toMeter E sr val }, none)
  else if name = "false_northing".toList then
    .ret ({ sr with Y0 := toMeter E sr val }, none)
  else if name = "latitude_of_origin".toList then
    .ret ({ sr with Lat0 := d2r E val }, none)
  else if name = "central_parallel".toList then
    .ret ({ sr with Lat0 := d2r E val }, none)
  else if name = "scale_factor".toList then
    .ret ({ sr with K0 := val }, none)
  else if name = "latitude_of_center".toList then
    .ret ({ sr with Lat0 := d2r E val }, none)
  else if name = "longitude_of_center".toList then
    .ret ({ sr with LongC := d2r E val }, none)
  else if name = "central_meridian".toList then
    .ret ({ sr with Long0 := d2r E val }, none)
  else if name = "azimuth".toList then
    .ret ({ sr with Alpha := d2r E val }, none)
  else if name = "auxiliary_sphere_type".toList then
    .ret (sr, none)
  else .ret (sr, some (.parameterName name))

/-- Go `(*SR).parseWKTPrimeM`. -/
def parseWKTPrimeM (_secName : List Str) (secData : Str) (sr : SR F) : Res F :=
  let v := Split secData ','
  (index v 0).bind fun v0 =>
  let name := ToLower v0
  if name ≠ "greenwich".toList then .ret (sr, some (.primeM name))
  else .ret (sr, none)

/-- Go `(*SR).parseWKTUnit`. -/
def parseWKTUnit (E : Float64 F) (_secName : List Str) (secData : Str)
    (sr : SR F) : Res F :=
  let v := Split secData ','
  (index v 0).bind fun v0 =>
  let sr := { sr with Units := ToLower v0 }
  let sr := if sr.Units = "metre".toList then { sr with Units := "meter".toList } else sr
  if 1 < v.length then
    (index v 1).bind fun v1 =>
    let convert := E.ParseFloat v1
    if convert.2 then .ret (sr, some (.unitValue v1))
    else if sr.Name = "longlat".toList then
      .ret ({ sr with ToMeter := E.mul convert.1 sr.A }, none)
    else .ret ({ sr with ToMeter := convert.1 }, none)
  else .ret (sr, none)

/-- Loop of Go `findWKTSections` from offset `i` on: `nest` is the nesting
counter, `open_` and `close` the offsets collected so far. -/
def findLoop : Str → Nat → Int → List Nat → List Nat → List Nat × List Nat
  | [], _, _, open_, close => (open_, close)
  | ch :: rest, i, nest, open_, close =>
    if ch = '[' then
      findLoop rest (i + 1) (nest + 1) (if nest = 0 then open_ ++ [i] else open_) close
    else if ch = ']' then
      findLoop rest (i + 1) (nest - 1) open_
        (if nest - 1 = 0 then close ++ [i] else close)
    else findLoop rest (i + 1) nest open_ close

/-- Go `findWKTSections`. -/
def findWKTSections (secData : Str) : List Nat × List Nat :=
  findLoop secData 0 0 [] []

/-- The name `parseWKTSection` derives for the child whose `[` is at offset
`o` (lines 232 to 236). -/
def sectionName (secData : Str) (o : Nat) : Run Str :=
  (slice secData 0 o).bind fun p =>
  let name := Trim p [',', ' ']
  if Contains name [','] then
    let comma := LastIndex name [',']
    slice name (comma + 1) name.length
  else .ret name

/-- The signature of `(*SR).parseWKTSection`, as the handlers call it. -/
abbrev Section (F : Type) := List Str → Str → SR F → Res F

/-- Go `(*SR).parseWKTDatum`; `recur` is `parseWKTSection`. -/
def parseWKTDatum (E : Float64 F) (recur : Section F) (secName : List Str)
    (secData : Str) (sr : SR F) : Res F :=
  (index secName ((secName.length : Int) - 1)).bind fun last =>
  if last = "DATUM".toList then
    (splitWKTName secData).bind fun nd =>
    let sr := { sr with DatumCode := ToLower nd.1 }
    (datumRename sr).bind fun sr =>
    recur secName nd.2 sr
  else if last = "SPHEROID".toList then
    parseWKTSpheroid E secName secData sr
  else .ret (sr, some (.unknownDatum secName))

/-- Go `(*SR).parseWKTGeoCS`; `recur` is `parseWKTSection`. -/
def parseWKTGeoCS (E : Float64 F) (recur : Section F) (secName : List Str)
    (secData : Str) (sr : SR F) : Res F :=
  (index secName ((secName.length : Int) - 1)).bind fun last =>
  if last = "GEOGCS".toList then
    (splitWKTName secData).bind fun nd =>
    let sr := { sr with DatumCode := ToLower nd.1 }
    (datumRename sr).bind fun sr =>
    recur secName nd.2 sr
  else if stringInArray "DATUM".toList secName then
    parseWKTDatum E recur secName secData sr
  else .ret (sr, some (.unknownGeoCS secName))

/-- Go `(*SR).parseWKTProjCS`; `recur` is `parseWKTSection`.  The error
returned by `parseWKTGeoCS` in the `GEOGCS` case is not looked at. -/
def parseWKTProjCS (E : Float64 F) (recur : Section F) (secName : List Str)
    (secData : Str) (sr : SR F) : Res F :=
  if secName.length = 1 then
    (splitWKTName secData).bind fun nd =>
    let sr := { sr with SRSCode := nd.1 }
    recur secName nd.2 sr
  else
    (index secName 1).bind fun k =>
    if k = "GEOGCS".toList then
      (parseWKTGeoCS E recur secName secData sr).bind fun r => .ret (r.1, none)
    else if k = "PRIMEM".toList then
      parseWKTPrimeM secName secData sr
    else if k = "PROJECTION".toList then
      .ret (parseWKTProjection secName secData sr, none)
    else if k = "PARAMETER".toList then
      parseWKTParameter E secName secData sr
    else if k = "UNIT".toList then
      parseWKTUnit E secName secData sr
    else .ret (sr, some (.unknownProjCS secName))

/-- Body of the `for` loop of `parseWKTSection` for one pair of offsets. -/
def sectionStep (E : Float64 F) (recur : Section F) (secName : List Str)
    (secData : Str) (o c : Nat) (sr : SR F) : Res F :=
  (sectionName secData o).bind fun name =>
  let secNameO := secName ++ [name]
  (slice secData (o + 1) c).bind fun secDataO =>
  (index secNameO 0).bind fun top =>
  if top = "PROJCS".toList then
    parseWKTProjCS E recur secNameO secDataO sr
  else if top = "GEOCS".toList then
    let sr := { sr with Name := "longlat".toList }
    parseWKTGeoCS E recur secNameO secDataO sr
  else if top = "LOCAL_CS".toList then
    .ret ({ sr with Name := "identity".toList, local_ := true }, none)
  else .ret (sr, some (.unknownName secName))

/-- The `for` loop of `parseWKTSection` over the collected offsets; it stops
at the first error. -/
def sectionLoop (E : Float64 F) (recur : Section F) (secName : List Str)
    (secData : Str) : List Nat → List Nat → SR F → Res F
  | [], _, sr => .ret (sr, none)
  | _ :: _, [], _ => .panic .indexRange
  | o :: os, c :: cs, sr =>
    (sectionStep E recur secName secData o c sr).bind fun r =>
    match r.2 with
    | some err => .ret (r.1, some err)
    | none => sectionLoop E recur secName secData os cs r.1

/-- Go `(*SR).parseWKTSection`, with fuel for the recursion through the
handlers. -/
def parseWKTSection (E : Float64 F) : Nat → Section F
  | 0, _, _, _ => .exhausted
  | fuel + 1, secName, secData, sr =>
    let oc := findWKTSections secData
    if oc.1.length ≠ oc.2.length then .ret (sr, some (.malformed secData))
    else sectionLoop E (parseWKTSection E fuel) secName secData oc.1 oc.2 sr

/-- Go `wkt`; `newSR` is the record `newSR()` returns. -/
def wkt (E : Float64 F) (newSR : SR F) (text : Str) : Res F :=
  parseWKTSection E (text.length + 1) [] text newSR

/-! ## Bracket structure of a text span -/

/-- Number of `[` minus number of `]` among the first `p` bytes of `s`: the
nesting depth in front of offset `p`. -/
def depth (s : Str) (p : Nat) : Int :=
  ((s.take p).count '[' : Int) - ((s.take p).count ']' : Int)

/-- The brackets of `s` are properly nested: every prefix has at least as
many `[` as `]`, and the totals are equal. -/
def Nested (s : Str) : Prop :=
  (∀ p, p ≤ s.length → (s.take p).count ']' ≤ (s.take p).count '[') ∧
    s.count '[' = s.count ']'

instance (s : Str) : Decidable (Nested s) := by
  unfold Nested; infer_instance

/-- Offset `c` holds the `]` that matches the `[` at offset `o`: it is the
first offset after `o` behind which the depth is back to what it was in
front of `o`. -/
def Matches (s : Str) (o c : Nat) : Prop :=
  s[o]? = some '[' ∧ s[c]? = some ']' ∧ o < c ∧ depth s (c + 1) = depth s o ∧
    ∀ p, o < p → p ≤ c → depth s o < depth s p

/-- What the scan of `findWKTSections` has established in front of offset `i`. -/
structure FindInv (s : Str) (i : Nat) (op cl : List Nat) : Prop where
  len : op.length = cl.length + (if 0 < depth s i then 1 else 0)
  pair : ∀ (k o c : Nat), op[k]? = some o → cl[k]? = some c → Matches s o c
  order : ∀ (k c o : Nat), cl[k]? = some c → op[k + 1]? = some o → c < o
  memOpen : ∀ p, p ∈ op ↔ p < i ∧ s[p]? = some '[' ∧ depth s p = 0
  memClose : ∀ p, p ∈ cl ↔ p < i ∧ s[p]? = some ']' ∧ depth s (p + 1) = 0
  pending : 0 < depth s i → ∀ o, op.getLast? = some o →
    ∀ p, o < p → p ≤ i → 0 < depth s p

/-! ## A concrete numeric environment for running the parser on examples -/

/-- The text is a non-empty run of decimal digits. -/
def isDigits (s : Str) : Bool := !s.isEmpty && s.all Char.isDigit

/-- Value of a run of decimal digits. -/
def digitsValue (s : Str) : Nat := s.foldl (fun n c => 10 * n + (c.toNat - 48)) 0

/-- A stand-in for `strconv.ParseFloat` on integers: it accepts an optional
minus sign, digits and an optional fraction, and returns the integral part;
on any other text it reports an error. -/
def decimalParse (s : Str) : Int × Bool :=
  let body := match s with
    | '-' :: t => t
    | t => t
  let sign : Int := match s with
    | '-' :: _ => -1
    | _ => 1
  match Split body '.' with
  | [a] => if isDigits a then (sign * digitsValue a, false) else (0, true)
  | [a, b] => if isDigits a && isDigits b then (sign * digitsValue a, false) else (0, true)
  | _ => (0, true)

/-- Integers as a stand-in for `float64`, to run the parser on examples. -/
def intFloat64 : Float64 Int where
  ParseFloat := decimalParse
  mul := fun a b => a * b
  IsNaN := fun _ => false
  deg2rad := 1

/-- A record with empty strings, zero numbers, factor `ToMeter = 1`. -/
def zeroSR : SR Int where
  SRSCode := []
  Name := []
  DatumCode := []
  Ellps := []
  Units := []
  A := 0
  Rf := 0
  B := 0
  Lat0 := 0
  Lat1 := 0
  Lat2 := 0
  LongC := 0
  Long0 := 0
  Alpha := 0
  X0 := 0
  Y0 := 0
  K0 := 0
  ToMeter := 1
  sphere := false
  local_ := false

/-- The environment `E` with the verdict of `ParseFloat` fixed on two lists of
texts: no error on the texts of `ok`, an error on the texts of `bad`. -/
def withVerdicts (E : Float64 F) (ok bad : List Str) : Float64 F :=
  { E with
    ParseFloat := fun s =>
      if s ∈ ok then ((E.ParseFloat s).1, false)
      else if s ∈ bad then ((E.ParseFloat s).1, true)
      else E.ParseFloat s }

/-! ## Inputs of the scenarios -/

/-- The projected-CRS input of the round-trip scenario. -/
def exampleProjCS : Str :=
  "PROJCS[\"NAD83 / UTM\",GEOGCS[\"NAD83\",DATUM[\"D_North_American_1983\",SPHEROID[\"GRS_1980\",6378137,298.257222101]]],PROJECTION[\"Transverse_Mercator\"],PARAMETER[\"latitude_of_origin\",0],PARAMETER[\"central_meridian\",-75],PARAMETER[\"scale_factor\",0.9996],PARAMETER[\"false_easting\",500000],PARAMETER[\"false_northing\",0],UNIT[\"metre\",1]]".toList

/-- The numerals of `exampleProjCS`. -/
def exampleNumerals : List Str :=
  ["6378137".toList, "298.257222101".toList, "0".toList, "-75".toList, "0.9996".toList,
    "500000".toList, "1".toList]

/-- The geographic-CRS input with no enclosing `PROJCS`. -/
def exampleGeogCS : Str :=
  "GEOGCS[\"WGS 84\",DATUM[\"WGS_1984\",SPHEROID[\"WGS_1984\",6378137,298.257223563]]]".toList

/-- A projected CRS whose spheroid, inside the `GEOGCS` child, has a
semi-major axis that is not a number. -/
def exampleBadAxis : Str :=
  "PROJCS[\"a\",GEOGCS[\"b\",DATUM[\"c\",SPHEROID[\"X\",\"abc\",298]]]]".toList

/-- A projected CRS with an unknown section inside its `GEOGCS` child. -/
def exampleUnknownNested : Str :=
  "PROJCS[\"a\",GEOGCS[\"b\",FOO[1]]]".toList

/-- A projected CRS whose second child is written after a comma and a space. -/
def exampleSpaced : Str :=
  "PROJCS[\"a\",PROJECTION[\"x\"], PROJECTION[\"y\"]]".toList

/-- A datum code on which none of the rules 1 to 5 of `datumRename` fires and
the prefix test does not panic: at least two bytes, no `d_` prefix, not one
of the three alias names, no `_ferro` or `_jakarta` suffix. -/
def Settled (c : Str) : Prop :=
  2 ≤ c.length ∧ c.take 2 ≠ "d_".toList ∧
    c ≠ "new_zealand_geodetic_datum_1949".toList ∧ c ≠ "new_zealand_1949".toList ∧
    c ≠ "wgs_1984".toList ∧
    HasSuffix c "_ferro".toList = false ∧ HasSuffix c "_jakarta".toList = false

instance (c : Str) : Decidable (Settled c) := by
  unfold Settled; infer_instance

/-- The twelve parameter names `parseWKTParameter` has a case for. -/
def recognizedParameters : List Str :=
  ["standard_parallel_1".toList, "standard_parallel_2".toList, "false_easting".toList,
    "false_northing".toList, "latitude_of_origin".toList, "central_parallel".toList,
    "scale_factor".toList, "latitude_of_center".toList, "longitude_of_center".toList,
    "central_meridian".toList, "azimuth".toList, "auxiliary_sphere_type".toList]

/-- A projected CRS with a projection and then an unknown parameter. -/
def exampleUnknownParam : Str :=
  "PROJCS[\"a\",PROJECTION[\"x\"],PARAMETER[\"unknown_param\",1]]".toList

/-- Two runs have the same outcome, and it is not exhaustion of the fuel. -/
def Run.Same {α : Type} (x y : Run α) : Prop := x = y ∧ x ≠ .exhausted

/-- Every value a run returns satisfies `P` (nothing is said of a run that
does not return). -/
def Run.All {α : Type} (P : α → Prop) (x : Run α) : Prop := ∀ a, x = .ret a → P a

/-- The ellipsoid name as the specification words it: every `_19` is
removed, then every `clarke_18` and every `Clarke_18` becomes `clrk`, and
when the first 13 bytes of the result are `international` in any case the
whole name becomes `intl`. -/
def ellpsName (n : Str) : Str :=
  let a := Replace n "_19".toList []
  let b := Replace (Replace a "clarke_18".toList "clrk".toList) "Clarke_18".toList "clrk".toList
  if ToLower (b.take 13) = "international".toList then "intl".toList else b

/-- The record `parseWKTSpheroid` leaves when both numbers parse. -/
def spheroidDone (E : Float64 F) (sr : SR F) (d0 d1 d2 : Str) : SR F :=
  { sr with
    Ellps := ellpsName d0
    A := (E.ParseFloat d1).1
    Rf := (E.ParseFloat d2).1
    DatumCode :=
      if Contains sr.DatumCode "osgb_1936".toList then "osgb36".toList else sr.DatumCode
    B := if E.IsNaN sr.B then (E.ParseFloat d1).1 else sr.B }

/-- The unit name as the specification words it: the first field in lower
case, with `metre` rewritten to `meter`. -/
def unitName (v0 : Str) : Str :=
  if ToLower v0 = "metre".toList then "meter".toList else ToLower v0

/-- The rules of `datumRename` behind the `d_` prefix rule (lines 89 to 107),
as a function of the record. -/
def datumTail (sr : SR F) : SR F :=
  let sr :=
    if sr.DatumCode = "new_zealand_geodetic_datum_1949".toList ∨
        sr.DatumCode = "new_zealand_1949".toList then
      { sr with DatumCode := "nzgd49".toList }
    else sr
  let sr :=
    if sr.DatumCode = "wgs_1984".toList then
      let sr :=
        if sr.Name = "Mercator_Auxiliary_Sphere".toList then { sr with sphere := true }
        else sr
      { sr with DatumCode := "wgs84".toList }
    else sr
  let sr :=
    if HasSuffix sr.DatumCode "_ferro".toList then
      { sr with DatumCode := TrimSuffix sr.DatumCode "_ferro".toList }
    else sr
  let sr :=
    if HasSuffix sr.DatumCode "_jakarta".toList then
      { sr with DatumCode := TrimSuffix sr.DatumCode "_jakarta".toList }
    else sr
  let sr :=
    if Contains sr.DatumCode "belge".toList then
      { sr with DatumCode := "rnb72".toList }
    else sr
  sr

/-- A section path whose outermost name is not `LOCAL_CS`. -/
def NotLocal (secName : List Str) : Prop :=
  ∃ k rest, secName = k :: rest ∧ k ≠ "LOCAL_CS".toList

/-- The keyword of the geographic case of the top-level `switch`, as
`parseWKTSection` spells it. -/
def geographicKeyword : Str := "GEOCS".toList

/-- Rule 2 of `datumRename`: the New Zealand aliases. -/
def datumAlias (sr : SR F) : SR F :=
  if sr.DatumCode = "new_zealand_geodetic_datum_1949".toList ∨
      sr.DatumCode = "new_zealand_1949".toList then
    { sr with DatumCode := "nzgd49".toList }
  else sr

/-- Rule 3 of `datumRename`: `wgs_1984`, with the auxiliary-sphere flag. -/
def datumWgs (sr : SR F) : SR F :=
  if sr.DatumCode = "wgs_1984".toList then
    let sr :=
      if sr.Name = "Mercator_Auxiliary_Sphere".toList then { sr with sphere := true }
      else sr
    { sr with DatumCode := "wgs84".toList }
  else sr

/-- Rules 4 and 5 of `datumRename`: a suffix is stripped. -/
def datumStrip (suf : Str) (sr : SR F) : SR F :=
  if HasSuffix sr.DatumCode suf then { sr with DatumCode := TrimSuffix sr.DatumCode suf }
  else sr

/-- Rule 6 of `datumRename`: a code containing `belge`. -/
def datumBelge (sr : SR F) : SR F :=
  if Contains sr.DatumCode "belge".toList then { sr with DatumCode := "rnb72".toList }
  else sr

/-! # Theorems -/

/-! ## Lemmas on the bracket scan -/

theorem depth_zero (s : Str) : depth s 0 = 0 := by
  simp [depth]

theorem depth_succ (s : Str) (i : Nat) (ch : Char) (h : s[i]? = some ch) :
    depth s (i + 1) =
      depth s i + (if ch = '[' then 1 else if ch = ']' then -1 else 0) := by
  unfold depth
  rw [List.take_succ, h]
  simp only [Option.toList, List.count_append, List.count_cons, List.count_nil]
  by_cases h1 : ch = '['
  · subst h1; simp; omega
  · by_cases h2 : ch = ']'
    · subst h2; simp; omega
    · simp [h1, h2]

theorem depth_length (s : Str) :
    depth s s.length = (s.count '[' : Int) - (s.count ']' : Int) := by
  simp [depth]


theorem findInv_init (s : Str) : FindInv s 0 [] [] := by
  refine ⟨by simp [depth_zero], ?_, ?_, ?_, ?_, ?_⟩ <;> simp

theorem findInv_other (s : Str) (i : Nat) (op cl : List Nat) (ch : Char)
    (h : FindInv s i op cl) (hc : s[i]? = some ch) (h1 : ch ≠ '[') (h2 : ch ≠ ']') :
    FindInv s (i + 1) op cl := by
  have hd : depth s (i + 1) = depth s i := by
    rw [depth_succ s i ch hc]; simp [h1, h2]
  refine ⟨by rw [hd]; exact h.len, h.pair, h.order, ?_, ?_, ?_⟩
  · intro p
    rw [h.memOpen]
    constructor
    · rintro ⟨a, b, c⟩; exact ⟨by omega, b, c⟩
    · rintro ⟨a, b, c⟩
      refine ⟨?_, b, c⟩
      rcases Nat.lt_succ_iff_lt_or_eq.mp a with a | a
      · exact a
      · subst a; rw [hc] at b; exact absurd (Option.some.inj b) h1
  · intro p
    rw [h.memClose]
    constructor
    · rintro ⟨a, b, c⟩; exact ⟨by omega, b, c⟩
    · rintro ⟨a, b, c⟩
      refine ⟨?_, b, c⟩
      rcases Nat.lt_succ_iff_lt_or_eq.mp a with a | a
      · exact a
      · subst a; rw [hc] at b; exact absurd (Option.some.inj b) h2
  · intro hpos o ho p hop hp
    rw [hd] at hpos
    rcases Nat.lt_succ_iff_lt_or_eq.mp (Nat.lt_succ_of_le hp) with a | a
    · exact h.pending hpos o ho p hop (by omega)
    · subst a; rw [hd]; exact hpos

theorem findInv_open (s : Str) (i : Nat) (op cl : List Nat)
    (h : FindInv s i op cl) (hc : s[i]? = some '[') :
    FindInv s (i + 1) (if depth s i = 0 then op ++ [i] else op) cl := by
  have hd : depth s (i + 1) = depth s i + 1 := by
    rw [depth_succ s i '[' hc]; simp
  have hlen := h.len
  have hclt : ∀ c, c ∈ cl → c < i := fun c hcm => ((h.memClose c).mp hcm).1
  by_cases h0 : depth s i = 0
  · simp only [h0, if_true]
    have hlen0 : op.length = cl.length := by rw [hlen, h0]; simp
    refine ⟨?_, ?_, ?_, ?_, ?_, ?_⟩
    · rw [hd, h0]; simp [hlen0]
    · intro k o c hko hkc
      have hk : k < cl.length := (List.getElem?_eq_some.mp hkc).1
      rw [List.getElem?_append_left (by omega)] at hko
      exact h.pair k o c hko hkc
    · intro k c o hkc hko
      have hk : k < cl.length := (List.getElem?_eq_some.mp hkc).1
      by_cases hk1 : k + 1 < op.length
      · rw [List.getElem?_append_left hk1] at hko
        exact h.order k c o hkc hko
      · have hk2 : k + 1 = op.length := by omega
        rw [List.getElem?_append_right (by omega), hk2] at hko
        simp at hko
        subst hko
        exact hclt c (List.getElem?_mem hkc)
    · intro p
      rw [List.mem_append, h.memOpen, List.mem_singleton]
      constructor
      · rintro (⟨a, b, c⟩ | rfl)
        · exact ⟨by omega, b, c⟩
        · exact ⟨by omega, hc, h0⟩
      · rintro ⟨a, b, c⟩
        rcases Nat.lt_succ_iff_lt_or_eq.mp a with a | a
        · exact Or.inl ⟨a, b, c⟩
        · exact Or.inr a
    · intro p
      rw [h.memClose]
      constructor
      · rintro ⟨a, b, c⟩; exact ⟨by omega, b, c⟩
      · rintro ⟨a, b, c⟩
        refine ⟨?_, b, c⟩
        rcases Nat.lt_succ_iff_lt_or_eq.mp a with a | a
        · exact a
        · subst a; rw [hc] at b; exact absurd (Option.some.inj b) (by decide)
    · intro _ o ho p hop hp
      rw [List.getLast?_append] at ho
      simp at ho
      subst ho
      have : p = i + 1 := by omega
      subst this
      rw [hd, h0]; decide
  · simp only [h0, if_false]
    refine ⟨?_, h.pair, h.order, ?_, ?_, ?_⟩
    · rw [hd, hlen]
      by_cases hp : 0 < depth s i
      · have : 0 < depth s i + 1 := by omega
        simp [hp, this]
      · have : ¬ 0 < depth s i + 1 := by omega
        simp [hp, this]
    · intro p
      rw [h.memOpen]
      constructor
      · rintro ⟨a, b, c⟩; exact ⟨by omega, b, c⟩
      · rintro ⟨a, b, c⟩
        refine ⟨?_, b, c⟩
        rcases Nat.lt_succ_iff_lt_or_eq.mp a with a | a
        · exact a
        · subst a; exact absurd c h0
    · intro p
      rw [h.memClose]
      constructor
      · rintro ⟨a, b, c⟩; exact ⟨by omega, b, c⟩
      · rintro ⟨a, b, c⟩
        refine ⟨?_, b, c⟩
        rcases Nat.lt_succ_iff_lt_or_eq.mp a with a | a
        · exact a
        · subst a; rw [hc] at b; exact absurd (Option.some.inj b) (by decide)
    · intro hpos o ho p hop hp
      rw [hd] at hpos
      have hpos0 : 0 < depth s i := by omega
      rcases Nat.lt_succ_iff_lt_or_eq.mp (Nat.lt_succ_of_le hp) with a | a
      · exact h.pending hpos0 o ho p hop (by omega)
      · subst a; rw [hd]; omega

theorem findInv_close (s : Str) (i : Nat) (op cl : List Nat)
    (h : FindInv s i op cl) (hc : s[i]? = some ']') :
    FindInv s (i + 1) op (if depth s i - 1 = 0 then cl ++ [i] else cl) := by
  have hd : depth s (i + 1) = depth s i - 1 := by
    rw [depth_succ s i ']' hc]; simp; rfl
  have hlen := h.len
  have hmemO : ∀ p, p ∈ op ↔ p < i + 1 ∧ s[p]? = some '[' ∧ depth s p = 0 := by
    intro p
    rw [h.memOpen]
    constructor
    · rintro ⟨a, b, c⟩; exact ⟨by omega, b, c⟩
    · rintro ⟨a, b, c⟩
      refine ⟨?_, b, c⟩
      rcases Nat.lt_succ_iff_lt_or_eq.mp a with a | a
      · exact a
      · subst a; rw [hc] at b; exact absurd (Option.some.inj b) (by decide)
  by_cases h1 : depth s i - 1 = 0
  · simp only [h1, if_true]
    have hpos : 0 < depth s i := by omega
    have hlen1 : op.length = cl.length + 1 := by rw [hlen]; simp [hpos]
    refine ⟨?_, ?_, ?_, hmemO, ?_, ?_⟩
    · rw [hd, h1]; simp [hlen1]
    · intro k o c hko hkc
      by_cases hk : k < cl.length
      · rw [List.getElem?_append_left hk] at hkc
        exact h.pair k o c hko hkc
      · have hk1 : k < op.length := (List.getElem?_eq_some.mp hko).1
        have hk2 : k = cl.length := by
          have := (List.getElem?_eq_some.mp hkc).1
          simp at this; omega
        rw [List.getElem?_append_right (by omega), hk2] at hkc
        simp at hkc
        subst hkc
        have hlast : op.getLast? = some o := by
          rw [List.getLast?_eq_getElem?, ← hko, hk2, hlen1]; simp
        have hom := (h.memOpen o).mp (List.getElem?_mem hko)
        refine ⟨hom.2.1, hc, hom.1, ?_, ?_⟩
        · rw [hd, h1, hom.2.2]
        · intro p hop hp
          rw [hom.2.2]
          exact h.pending hpos o hlast p hop hp
    · intro k c o hkc hko
      have hk1 : k + 1 < op.length := (List.getElem?_eq_some.mp hko).1
      rw [List.getElem?_append_left (by omega)] at hkc
      exact h.order k c o hkc hko
    · intro p
      rw [List.mem_append, h.memClose, List.mem_singleton]
      constructor
      · rintro (⟨a, b, c⟩ | rfl)
        · exact ⟨by omega, b, c⟩
        · exact ⟨by omega, hc, by rw [hd, h1]⟩
      · rintro ⟨a, b, c⟩
        rcases Nat.lt_succ_iff_lt_or_eq.mp a with a | a
        · exact Or.inl ⟨a, b, c⟩
        · exact Or.inr a
    · intro hp2; rw [hd, h1] at hp2; exact absurd hp2 (by decide)
  · simp only [h1, if_false]
    refine ⟨?_, h.pair, h.order, hmemO, ?_, ?_⟩
    · rw [hd, hlen]
      by_cases hp : 0 < depth s i
      · have : 0 < depth s i - 1 := by omega
        simp [hp, this]
      · have : ¬ 0 < depth s i - 1 := by omega
        simp [hp, this]
    · intro p
      rw [h.memClose]
      constructor
      · rintro ⟨a, b, c⟩; exact ⟨by omega, b, c⟩
      · rintro ⟨a, b, c⟩
        refine ⟨?_, b, c⟩
        rcases Nat.lt_succ_iff_lt_or_eq.mp a with a | a
        · exact a
        · subst a; rw [hd] at c; exact absurd c h1
    · intro hpos o ho p hop hp
      rw [hd] at hpos
      have hpos0 : 0 < depth s i := by omega
      rcases Nat.lt_succ_iff_lt_or_eq.mp (Nat.lt_succ_of_le hp) with a | a
      · exact h.pending hpos0 o ho p hop (by omega)
      · subst a; rw [hd]; omega

theorem findLoop_inv (s : Str) : ∀ (suf pre : Str) (op cl : List Nat),
    s = pre ++ suf → FindInv s pre.length op cl →
    FindInv s s.length (findLoop suf pre.length (depth s pre.length) op cl).1
      (findLoop suf pre.length (depth s pre.length) op cl).2 := by
  intro suf
  induction suf with
  | nil =>
    intro pre op cl hs h
    have hl : s.length = pre.length := by rw [hs]; simp
    rw [hl]; simpa [findLoop] using h
  | cons ch rest ih =>
    intro pre op cl hs h
    have hc : s[pre.length]? = some ch := by
      rw [hs, List.getElem?_append_right (Nat.le_refl _)]; simp
    have hs1 : s = (pre ++ [ch]) ++ rest := by simp [hs]
    have hl : (pre ++ [ch]).length = pre.length + 1 := by simp
    have hd := depth_succ s pre.length ch hc
    by_cases h1 : ch = '['
    · subst h1
      have key := ih (pre ++ ['[']) _ _ hs1
        (by rw [hl]; exact findInv_open s _ op cl h hc)
      rw [hl, hd] at key
      simpa [findLoop] using key
    · by_cases h2 : ch = ']'
      · subst h2
        have key := ih (pre ++ [']']) _ _ hs1
          (by rw [hl]; exact findInv_close s _ op cl h hc)
        rw [hl, hd] at key
        simpa [findLoop, Int.sub_eq_add_neg] using key
      · have key := ih (pre ++ [ch]) _ _ hs1
          (by rw [hl]; exact findInv_other s _ op cl ch h hc h1 h2)
        rw [hl, hd] at key
        simpa [findLoop, h1, h2] using key

theorem findWKTSections_inv (s : Str) :
    FindInv s s.length (findWKTSections s).1 (findWKTSections s).2 := by
  have key := findLoop_inv s s [] [] [] (by simp) (by simpa using findInv_init s)
  simpa [findWKTSections, depth_zero] using key

theorem findWKTSections_length (s : Str) :
    (findWKTSections s).1.length =
      (findWKTSections s).2.length + (if s.count ']' < s.count '[' then 1 else 0) := by
  have h := (findWKTSections_inv s).len
  rw [depth_length] at h
  rw [h]
  by_cases hc : s.count ']' < s.count '['
  · have : (0 : Int) < (s.count '[' : Int) - (s.count ']' : Int) := by omega
    simp [hc, this]
  · have : ¬ (0 : Int) < (s.count '[' : Int) - (s.count ']' : Int) := by omega
    simp [hc, this]

/-- C1. On a span whose brackets are properly nested, `findWKTSections`
returns as many close offsets as open offsets; the `i`-th open offset holds a
`[`, the `i`-th close offset holds the `]` matching it and lies behind it and
in front of the next open offset; the open offsets are exactly the `[` at
depth zero (the outermost pairs) and no bracket inside a reported pair is
reported. -/
theorem findWKTSections_nested (s : Str) (h : Nested s) :
    (findWKTSections s).1.length = (findWKTSections s).2.length ∧
    (∀ (i o c : Nat), (findWKTSections s).1[i]? = some o →
      (findWKTSections s).2[i]? = some c →
      s[o]? = some '[' ∧ s[c]? = some ']' ∧ o < c ∧ Matches s o c) ∧
    (∀ (i c o : Nat), (findWKTSections s).2[i]? = some c →
      (findWKTSections s).1[i + 1]? = some o → c < o) ∧
    (∀ p, p ∈ (findWKTSections s).1 ↔ s[p]? = some '[' ∧ depth s p = 0) ∧
    (∀ p, p ∈ (findWKTSections s).2 ↔ s[p]? = some ']' ∧ depth s (p + 1) = 0) ∧
    (∀ (i o c p : Nat), (findWKTSections s).1[i]? = some o →
      (findWKTSections s).2[i]? = some c → o < p → p < c →
      p ∉ (findWKTSections s).1 ∧ p ∉ (findWKTSections s).2) := by
  have inv := findWKTSections_inv s
  have hlen := findWKTSections_length s
  have hbound : ∀ (p : Nat) (ch : Char), s[p]? = some ch → p < s.length :=
    fun p ch hp => (List.getElem?_eq_some.mp hp).1
  refine ⟨?_, ?_, inv.order, ?_, ?_, ?_⟩
  · rw [hlen, h.2]; simp
  · intro i o c ho hc
    have m := inv.pair i o c ho hc
    exact ⟨m.1, m.2.1, m.2.2.1, m⟩
  · intro p
    rw [inv.memOpen]
    exact ⟨fun ⟨_, b, c⟩ => ⟨b, c⟩, fun ⟨b, c⟩ => ⟨hbound p _ b, b, c⟩⟩
  · intro p
    rw [inv.memClose]
    exact ⟨fun ⟨_, b, c⟩ => ⟨b, c⟩, fun ⟨b, c⟩ => ⟨hbound p _ b, b, c⟩⟩
  · intro i o c p ho hc hop hpc
    have m := inv.pair i o c ho hc
    have hdo : depth s o = 0 := ((inv.memOpen o).mp (List.getElem?_mem ho)).2.2
    constructor
    · intro hp
      have := ((inv.memOpen p).mp hp).2.2
      have := m.2.2.2.2 p hop (by omega)
      omega
    · intro hp
      have := ((inv.memClose p).mp hp).2.2
      have := m.2.2.2.2 (p + 1) (by omega) (by omega)
      omega

theorem findWKTSections_nested_witness :
    Nested "a[b[c]d]e[f]".toList ∧
    (findWKTSections "a[b[c]d]e[f]".toList).1.length =
      (findWKTSections "a[b[c]d]e[f]".toList).2.length :=
  ⟨by decide, (findWKTSections_nested "a[b[c]d]e[f]".toList (by decide)).1⟩


/-! ## The fuel of `parseWKTSection` suffices -/

@[simp] theorem Run.ret_bind {α β : Type} (a : α) (f : α → Run β) :
    (Run.ret a).bind f = f a := rfl

@[simp] theorem Run.panic_bind {α β : Type} (p : Panic) (f : α → Run β) :
    (Run.panic p : Run α).bind f = .panic p := rfl

@[simp] theorem Run.exhausted_bind {α β : Type} (f : α → Run β) :
    (Run.exhausted : Run α).bind f = .exhausted := rfl

theorem Run.Same.of_ne {α : Type} {x : Run α} (h : x ≠ .exhausted) : Run.Same x x :=
  ⟨rfl, h⟩

theorem Run.Same.ret {α : Type} (a : α) : Run.Same (Run.ret a) (Run.ret a) :=
  ⟨rfl, by simp⟩

theorem Run.Same.bind {α β : Type} {x : Run α} {f g : α → Run β}
    (hx : x ≠ .exhausted) (h : ∀ a, x = .ret a → Run.Same (f a) (g a)) :
    Run.Same (x.bind f) (x.bind g) := by
  cases x with
  | ret a => simpa using h a rfl
  | panic p => exact ⟨rfl, by simp⟩
  | exhausted => exact absurd rfl hx

theorem Run.Same.ite {α : Type} {c : Prop} [Decidable c] {a b a1 b1 : Run α}
    (h1 : c → Run.Same a b) (h2 : ¬ c → Run.Same a1 b1) :
    Run.Same (if c then a else a1) (if c then b else b1) := by
  by_cases hc : c
  · simpa [hc] using h1 hc
  · simpa [hc] using h2 hc

theorem Run.ne_exhausted_bind {α β : Type} {x : Run α} {f : α → Run β}
    (hx : x ≠ .exhausted) (h : ∀ a, f a ≠ .exhausted) : x.bind f ≠ .exhausted := by
  cases x with
  | ret a => simpa using h a
  | panic p => simp
  | exhausted => exact absurd rfl hx

theorem Run.ne_exhausted_ite {α : Type} {c : Prop} [Decidable c] {a b : Run α}
    (ha : a ≠ .exhausted) (hb : b ≠ .exhausted) : (if c then a else b) ≠ .exhausted := by
  split
  · exact ha
  · exact hb

theorem Run.ret_ne_exhausted {α : Type} (a : α) : Run.ret a ≠ .exhausted := by
  simp

theorem slice_ne_exhausted (s : Str) (lo hi : Int) : slice s lo hi ≠ .exhausted := by
  unfold slice; split <;> simp

theorem index_ne_exhausted (a : List Str) (i : Int) : index a i ≠ .exhausted := by
  unfold index
  split
  · split <;> simp
  · simp

theorem slice_ret_bounds (s r : Str) (lo hi : Int) (h : slice s lo hi = .ret r) :
    0 ≤ lo ∧ lo ≤ hi ∧ hi ≤ (s.length : Int) := by
  unfold slice at h
  by_cases hc : 0 ≤ lo ∧ lo ≤ hi ∧ hi ≤ (s.length : Int)
  · exact hc
  · rw [if_neg hc] at h; cases h

theorem slice_ret_length (s r : Str) (lo hi : Int) (h : slice s lo hi = .ret r) :
    (r.length : Int) = hi - lo := by
  have hb := slice_ret_bounds s r lo hi h
  unfold slice at h
  rw [if_pos hb] at h
  cases h
  simp only [List.length_take, List.length_drop]
  omega

theorem splitWKTName_ne_exhausted (secData : Str) : splitWKTName secData ≠ .exhausted := by
  unfold splitWKTName
  exact Run.ne_exhausted_bind (slice_ne_exhausted _ _ _) fun _ =>
    Run.ne_exhausted_bind (slice_ne_exhausted _ _ _) fun _ => by simp

theorem splitWKTName_length (secData name data : Str)
    (h : splitWKTName secData = .ret (name, data)) : data.length < secData.length := by
  unfold splitWKTName at h
  simp only [] at h
  cases h1 : slice secData 0 (Index secData [',']) with
  | panic p => rw [h1] at h; simp at h
  | exhausted => rw [h1] at h; simp at h
  | ret a =>
    rw [h1, Run.ret_bind] at h
    cases h2 : slice secData (Index secData [','] + 1) secData.length with
    | panic p => rw [h2] at h; simp at h
    | exhausted => rw [h2] at h; simp at h
    | ret b =>
      rw [h2, Run.ret_bind] at h
      simp only [Run.ret.injEq, Prod.mk.injEq] at h
      have hb := slice_ret_bounds _ _ _ _ h1
      have hl := slice_ret_length _ _ _ _ h2
      rw [← h.2]
      omega

theorem datumRename_ne_exhausted (sr : SR F) : datumRename sr ≠ .exhausted := by
  unfold datumRename
  refine Run.ne_exhausted_bind (slice_ne_exhausted _ _ _) fun p => ?_
  refine Run.ne_exhausted_bind ?_ fun _ => by simp
  split
  · exact Run.ne_exhausted_bind (slice_ne_exhausted _ _ _) fun _ => by simp
  · simp

theorem sectionName_ne_exhausted (secData : Str) (o : Nat) :
    sectionName secData o ≠ .exhausted := by
  unfold sectionName
  refine Run.ne_exhausted_bind (slice_ne_exhausted _ _ _) fun p => ?_
  simp only []
  split
  · exact slice_ne_exhausted _ _ _
  · simp

theorem sectionLoop_cons (E : Float64 F) (recur : Section F) (secName : List Str)
    (secData : Str) (o c : Nat) (os cs : List Nat) (sr : SR F) :
    sectionLoop E recur secName secData (o :: os) (c :: cs) sr =
      (sectionStep E recur secName secData o c sr).bind fun r =>
        match r.2 with
        | some err => .ret (r.1, some err)
        | none => sectionLoop E recur secName secData os cs r.1 := rfl

theorem parseWKTSection_succ (E : Float64 F) (fuel : Nat) (secName : List Str)
    (secData : Str) (sr : SR F) :
    parseWKTSection E (fuel + 1) secName secData sr =
      if (findWKTSections secData).1.length ≠ (findWKTSections secData).2.length then
        .ret (sr, some (.malformed secData))
      else sectionLoop E (parseWKTSection E fuel) secName secData
        (findWKTSections secData).1 (findWKTSections secData).2 sr := rfl

theorem parseWKTSpheroid_ne_exhausted (E : Float64 F) (secName : List Str)
    (secData : Str) (sr : SR F) : parseWKTSpheroid E secName secData sr ≠ .exhausted := by
  unfold parseWKTSpheroid
  simp only []
  refine Run.ne_exhausted_bind (index_ne_exhausted _ _) fun d0 => ?_
  refine Run.ne_exhausted_bind ?_ fun sr1 => ?_
  · split
    · exact Run.ne_exhausted_bind (slice_ne_exhausted _ _ _) fun _ => by simp
    · simp
  · refine Run.ne_exhausted_bind (index_ne_exhausted _ _) fun d1 => ?_
    split
    · simp
    · refine Run.ne_exhausted_bind (index_ne_exhausted _ _) fun d2 => ?_
      split <;> simp

theorem parseWKTParameter_ne_exhausted (E : Float64 F) (secName : List Str)
    (secData : Str) (sr : SR F) : parseWKTParameter E secName secData sr ≠ .exhausted := by
  unfold parseWKTParameter
  simp only []
  refine Run.ne_exhausted_bind (index_ne_exhausted _ _) fun v0 => ?_
  refine Run.ne_exhausted_bind (index_ne_exhausted _ _) fun v1 => ?_
  repeat' apply Run.ne_exhausted_ite
  all_goals exact Run.ret_ne_exhausted _

theorem parseWKTPrimeM_ne_exhausted (secName : List Str) (secData : Str) (sr : SR F) :
    parseWKTPrimeM secName secData sr ≠ .exhausted := by
  unfold parseWKTPrimeM
  simp only []
  refine Run.ne_exhausted_bind (index_ne_exhausted _ _) fun v0 => ?_
  split <;> simp

theorem parseWKTUnit_ne_exhausted (E : Float64 F) (secName : List Str)
    (secData : Str) (sr : SR F) : parseWKTUnit E secName secData sr ≠ .exhausted := by
  unfold parseWKTUnit
  simp only []
  refine Run.ne_exhausted_bind (index_ne_exhausted _ _) fun v0 => ?_
  split
  · refine Run.ne_exhausted_bind (index_ne_exhausted _ _) fun v1 => ?_
    repeat' apply Run.ne_exhausted_ite
    all_goals exact Run.ret_ne_exhausted _
  · simp

theorem parseWKTDatum_same (E : Float64 F) (r1 r2 : Section F) (secName : List Str)
    (secData : Str) (sr : SR F)
    (h : ∀ (nm : List Str) (data : Str) (sr : SR F), data.length < secData.length →
      Run.Same (r1 nm data sr) (r2 nm data sr)) :
    Run.Same (parseWKTDatum E r1 secName secData sr)
      (parseWKTDatum E r2 secName secData sr) := by
  unfold parseWKTDatum
  refine Run.Same.bind (index_ne_exhausted _ _) fun last _ => ?_
  refine Run.Same.ite (fun _ => ?_) (fun _ => ?_)
  · refine Run.Same.bind (splitWKTName_ne_exhausted _) fun nd hnd => ?_
    refine Run.Same.bind (datumRename_ne_exhausted _) fun sr1 _ => ?_
    exact h _ _ _ (splitWKTName_length secData nd.1 nd.2 hnd)
  · exact Run.Same.of_ne (by
      split
      · exact parseWKTSpheroid_ne_exhausted _ _ _ _
      · simp)

theorem parseWKTGeoCS_same (E : Float64 F) (r1 r2 : Section F) (secName : List Str)
    (secData : Str) (sr : SR F)
    (h : ∀ (nm : List Str) (data : Str) (sr : SR F), data.length < secData.length →
      Run.Same (r1 nm data sr) (r2 nm data sr)) :
    Run.Same (parseWKTGeoCS E r1 secName secData sr)
      (parseWKTGeoCS E r2 secName secData sr) := by
  unfold parseWKTGeoCS
  refine Run.Same.bind (index_ne_exhausted _ _) fun last _ => ?_
  refine Run.Same.ite (fun _ => ?_) (fun _ => ?_)
  · refine Run.Same.bind (splitWKTName_ne_exhausted _) fun nd hnd => ?_
    refine Run.Same.bind (datumRename_ne_exhausted _) fun sr1 _ => ?_
    exact h _ _ _ (splitWKTName_length secData nd.1 nd.2 hnd)
  · refine Run.Same.ite (fun _ => ?_) (fun _ => Run.Same.ret _)
    exact parseWKTDatum_same E r1 r2 secName secData sr h

theorem parseWKTProjCS_same (E : Float64 F) (r1 r2 : Section F) (secName : List Str)
    (secData : Str) (sr : SR F)
    (h : ∀ (nm : List Str) (data : Str) (sr : SR F), data.length < secData.length →
      Run.Same (r1 nm data sr) (r2 nm data sr)) :
    Run.Same (parseWKTProjCS E r1 secName secData sr)
      (parseWKTProjCS E r2 secName secData sr) := by
  unfold parseWKTProjCS
  refine Run.Same.ite (fun _ => ?_) (fun _ => ?_)
  · refine Run.Same.bind (splitWKTName_ne_exhausted _) fun nd hnd => ?_
    exact h _ _ _ (splitWKTName_length secData nd.1 nd.2 hnd)
  · refine Run.Same.bind (index_ne_exhausted _ _) fun k _ => ?_
    refine Run.Same.ite (fun _ => ?_) (fun _ => ?_)
    · have hg := parseWKTGeoCS_same E r1 r2 secName secData sr h
      rw [← hg.1]
      exact Run.Same.of_ne (Run.ne_exhausted_bind hg.2 fun _ => by simp)
    · exact Run.Same.of_ne (by
        split
        · exact parseWKTPrimeM_ne_exhausted _ _ _
        · split
          · simp
          · split
            · exact parseWKTParameter_ne_exhausted _ _ _ _
            · split
              · exact parseWKTUnit_ne_exhausted _ _ _ _
              · simp)

theorem sectionStep_same (E : Float64 F) (r1 r2 : Section F) (secName : List Str)
    (secData : Str) (o c : Nat) (sr : SR F)
    (h : ∀ (nm : List Str) (data : Str) (sr : SR F), data.length < secData.length →
      Run.Same (r1 nm data sr) (r2 nm data sr)) :
    Run.Same (sectionStep E r1 secName secData o c sr)
      (sectionStep E r2 secName secData o c sr) := by
  unfold sectionStep
  refine Run.Same.bind (sectionName_ne_exhausted _ _) fun name _ => ?_
  refine Run.Same.bind (slice_ne_exhausted _ _ _) fun body hbody => ?_
  have hlen : body.length ≤ secData.length := by
    have hb := slice_ret_bounds _ _ _ _ hbody
    have hl := slice_ret_length _ _ _ _ hbody
    omega
  have h1 : ∀ (nm : List Str) (data : Str) (sr : SR F), data.length < body.length →
      Run.Same (r1 nm data sr) (r2 nm data sr) :=
    fun nm data sr hd => h nm data sr (by omega)
  refine Run.Same.bind (index_ne_exhausted _ _) fun top _ => ?_
  refine Run.Same.ite (fun _ => ?_) (fun _ => ?_)
  · exact parseWKTProjCS_same E r1 r2 _ body sr h1
  · refine Run.Same.ite (fun _ => ?_) (fun _ => ?_)
    · exact parseWKTGeoCS_same E r1 r2 _ body _ h1
    · exact Run.Same.of_ne (by split <;> simp)

theorem sectionLoop_same (E : Float64 F) (r1 r2 : Section F) (secName : List Str)
    (secData : Str)
    (h : ∀ (nm : List Str) (data : Str) (sr : SR F), data.length < secData.length →
      Run.Same (r1 nm data sr) (r2 nm data sr)) :
    ∀ (os cs : List Nat) (sr : SR F),
      Run.Same (sectionLoop E r1 secName secData os cs sr)
        (sectionLoop E r2 secName secData os cs sr) := by
  intro os
  induction os with
  | nil => intro cs sr; exact Run.Same.ret _
  | cons o os ih =>
    intro cs sr
    cases cs with
    | nil => exact ⟨rfl, by simp [sectionLoop]⟩
    | cons c cs =>
      have hs := sectionStep_same E r1 r2 secName secData o c sr h
      rw [sectionLoop_cons, sectionLoop_cons, ← hs.1]
      refine Run.Same.bind hs.2 fun r _ => ?_
      cases hr : r.2 with
      | some err => exact Run.Same.ret _
      | none => exact ih cs r.1

/-- The fuel `wkt` supplies is enough: with more fuel than the text has bytes,
`parseWKTSection` does not run out of fuel, and any such amount of fuel gives
the same outcome. -/
theorem parseWKTSection_fuel (E : Float64 F) :
    ∀ (n m : Nat) (secName : List Str) (secData : Str) (sr : SR F),
      secData.length < n → secData.length < m →
      Run.Same (parseWKTSection E n secName secData sr)
        (parseWKTSection E m secName secData sr) := by
  intro n
  induction n with
  | zero => intro m secName secData sr hn; omega
  | succ n ih =>
    intro m secName secData sr hn hm
    cases m with
    | zero => omega
    | succ m =>
      rw [parseWKTSection_succ, parseWKTSection_succ]
      refine Run.Same.ite (fun _ => Run.Same.ret _) (fun _ => ?_)
      exact sectionLoop_same E _ _ secName secData
        (fun nm data sr1 hd => ih m nm data sr1 (by omega) (by omega)) _ _ sr

theorem wkt_ne_exhausted (E : Float64 F) (newSR : SR F) (text : Str) :
    wkt E newSR text ≠ .exhausted :=
  (parseWKTSection_fuel E (text.length + 1) (text.length + 1) [] text newSR
    (by omega) (by omega)).2

/-! ## Structural validation -/

theorem parseWKTSection_succ_malformed (E : Float64 F) (fuel : Nat)
    (secName : List Str) (s : Str) (sr : SR F) (h : s.count ']' < s.count '[') :
    parseWKTSection E (fuel + 1) secName s sr = .ret (sr, some (.malformed s)) := by
  have hlen := findWKTSections_length s
  rw [if_pos h] at hlen
  have hne : (findWKTSections s).1.length ≠ (findWKTSections s).2.length := by omega
  simp [parseWKTSection, hne]

/-- C2 (as stated, refuted). The span `LOCAL_CS[x]]` is not properly nested
(it has a surplus `]`), and `parseWKTSection` accepts it without any error. -/
theorem parseWKTSection_surplus_close_accepted :
    ¬ Nested "LOCAL_CS[x]]".toList ∧
    parseWKTSection intFloat64 ("LOCAL_CS[x]]".toList.length + 1) [] "LOCAL_CS[x]]".toList
        zeroSR =
      .ret ({ zeroSR with Name := "identity".toList, local_ := true }, none) := by
  decide

/-- C2 (amended). On every span that holds strictly more `[` than `]`,
`parseWKTSection` reports the malformed-section error for that span and
leaves the record as it was. -/
theorem parseWKTSection_more_open_malformed (E : Float64 F) (fuel : Nat)
    (secName : List Str) (s : Str) (sr : SR F) (h : s.count ']' < s.count '[') :
    parseWKTSection E (fuel + 1) secName s sr = .ret (sr, some (.malformed s)) :=
  parseWKTSection_succ_malformed E fuel secName s sr h

theorem parseWKTSection_more_open_malformed_witness :
    "UNIT[[x]".toList.count ']' < "UNIT[[x]".toList.count '[' ∧
    parseWKTSection intFloat64 (0 + 1) ["PROJCS".toList] "UNIT[[x]".toList zeroSR =
      .ret (zeroSR, some (.malformed "UNIT[[x]".toList)) :=
  ⟨by decide, parseWKTSection_more_open_malformed intFloat64 0 ["PROJCS".toList]
    "UNIT[[x]".toList zeroSR (by decide)⟩

/-- C3. On every input that holds strictly more `[` than `]`, `wkt` returns
the malformed-section error together with the record `newSR()` created,
unchanged. -/
theorem wkt_more_open_malformed (E : Float64 F) (newSR : SR F) (text : Str)
    (h : text.count ']' < text.count '[') :
    wkt E newSR text = .ret (newSR, some (.malformed text)) :=
  parseWKTSection_succ_malformed E text.length [] text newSR h

theorem wkt_more_open_malformed_witness :
    "LOCAL_CS[x][".toList.count ']' < "LOCAL_CS[x][".toList.count '[' ∧
    wkt intFloat64 zeroSR "LOCAL_CS[x][".toList =
      .ret (zeroSR, some (.malformed "LOCAL_CS[x][".toList)) :=
  ⟨by decide, wkt_more_open_malformed intFloat64 zeroSR "LOCAL_CS[x][".toList (by decide)⟩

/-! ## The scenarios -/

theorem withVerdicts_eq (E : Float64 F) (ok bad : List Str)
    (hok : ∀ s, s ∈ ok → (E.ParseFloat s).2 = false)
    (hbad : ∀ s, s ∈ bad → (E.ParseFloat s).2 = true) : withVerdicts E ok bad = E := by
  cases E with
  | mk pf mul nan d =>
    simp only [withVerdicts]
    congr
    funext s
    by_cases hs : s ∈ ok
    · have := hok s hs
      simp only [hs, if_true]
      exact Prod.ext rfl this.symm
    · by_cases hb : s ∈ bad
      · have := hbad s hb
        simp only [hs, hb, if_true, if_false]
        exact Prod.ext rfl this.symm
      · simp [hs, hb]

/-- C4 (what the code does on the input of the scenario). When `ParseFloat`
accepts the seven numerals of the input, `wkt` returns no error, and the
strings of the record keep the double quotes of the input: `SRSCode` is
`"NAD83 / UTM"` with its quotes, `DatumCode` is `"d_north_american_1983"`
with its quotes and its `d_`, `Name` is `"Transverse_Mercator"` with its
quotes and `Units` is `"metre"` with its quotes, not `meter`. -/
theorem wkt_exampleProjCS_keeps_quotes (E : Float64 F) (newSR : SR F)
    (h : ∀ s, s ∈ exampleNumerals → (E.ParseFloat s).2 = false) :
    ∃ sr, wkt E newSR exampleProjCS = .ret (sr, none) ∧
      sr.SRSCode = "\"NAD83 / UTM\"".toList ∧
      sr.DatumCode = "\"d_north_american_1983\"".toList ∧
      sr.Name = "\"Transverse_Mercator\"".toList ∧
      sr.Units = "\"metre\"".toList := by
  rw [← withVerdicts_eq E exampleNumerals [] h (by simp)]
  exact ⟨_, rfl, rfl, rfl, rfl, rfl⟩

theorem wkt_exampleProjCS_keeps_quotes_witness :
    (∀ s, s ∈ exampleNumerals → (intFloat64.ParseFloat s).2 = false) ∧
    ∃ sr, wkt intFloat64 zeroSR exampleProjCS = .ret (sr, none) ∧
      sr.SRSCode = "\"NAD83 / UTM\"".toList ∧
      sr.DatumCode = "\"d_north_american_1983\"".toList ∧
      sr.Name = "\"Transverse_Mercator\"".toList ∧
      sr.Units = "\"metre\"".toList :=
  ⟨by decide, wkt_exampleProjCS_keeps_quotes intFloat64 zeroSR (by decide)⟩

/-- C5 (what the code does on the input of the scenario). On the
geographic-CRS input `wkt` returns the unknown-section-name error and the
record `newSR()` unchanged: the top-level keyword `GEOGCS` is not among the
cases of `parseWKTSection`, which tests for `GEOCS`. -/
theorem wkt_exampleGeogCS_rejected (E : Float64 F) (newSR : SR F) :
    wkt E newSR exampleGeogCS = .ret (newSR, some (.unknownName [])) := by
  rfl

/-- C7 (what the code does on a failing section below `GEOGCS`). The spheroid
handler rejects the interior `"X","abc",298` when `ParseFloat` rejects
`"abc"`, yet `wkt` returns no error on the projected CRS that holds this
spheroid inside its `GEOGCS` child; the same holds for an unknown section
`FOO` inside the `GEOGCS` child. -/
theorem wkt_drops_error_below_geogcs (E : Float64 F) (newSR : SR F)
    (h : (E.ParseFloat "\"abc\"".toList).2 = true) :
    (∀ sr : SR F, parseWKTSpheroid E
        ["PROJCS".toList, "GEOGCS".toList, "DATUM".toList, "SPHEROID".toList]
        "\"X\",\"abc\",298".toList sr =
      .ret ({ sr with Ellps := "\"X\"".toList }, some (.spheroidA "\"abc\"".toList))) ∧
    (∃ sr, wkt E newSR exampleBadAxis = .ret (sr, none)) ∧
    (∃ sr, wkt E newSR exampleUnknownNested = .ret (sr, none)) := by
  rw [← withVerdicts_eq E [] ["\"abc\"".toList] (by simp) (by simpa using h)]
  exact ⟨fun _ => rfl, ⟨_, rfl⟩, ⟨_, rfl⟩⟩

theorem wkt_drops_error_below_geogcs_witness :
    (intFloat64.ParseFloat "\"abc\"".toList).2 = true ∧
    (∃ sr, wkt intFloat64 zeroSR exampleBadAxis = .ret (sr, none)) :=
  ⟨by decide, (wkt_drops_error_below_geogcs intFloat64 zeroSR (by decide)).2.1⟩

/-- C8 (inputs on which the code panics). `wkt` aborts with a slice-bounds
panic in `splitWKTName` when the `PROJCS` interior has no comma and in
`datumRename` when the captured name is empty, and with an index-out-of-range
panic in `parseWKTSpheroid` and in `parseWKTParameter` when the interior has a
single field. -/
theorem wkt_panics (E : Float64 F) (newSR : SR F) :
    wkt E newSR "PROJCS[abc]".toList = .panic .sliceBounds ∧
    wkt E newSR "PROJCS[\"a\",GEOGCS[,x]]".toList = .panic .sliceBounds ∧
    wkt E newSR "PROJCS[\"a\",GEOGCS[\"b\",DATUM[\"c\",SPHEROID[\"X\"]]]]".toList =
      .panic .indexRange ∧
    wkt E newSR "PROJCS[\"a\",PARAMETER[\"x\"]]".toList = .panic .indexRange :=
  ⟨rfl, rfl, rfl, rfl⟩

/-- C10 (what the code does for a child written after a comma and a space).
In the section text `A[x], PROJECTION[y]` the second child, whose `[` is at
offset 16, gets the name ` PROJECTION` with a leading space; on the projected
CRS `exampleSpaced` the second `PROJECTION` child is therefore rejected as an
unknown section. -/
theorem sectionName_keeps_leading_space (E : Float64 F) (newSR : SR F) :
    (findWKTSections "A[x], PROJECTION[y]".toList).1 = [1, 16] ∧
    sectionName "A[x], PROJECTION[y]".toList 16 = .ret " PROJECTION".toList ∧
    wkt E newSR exampleSpaced =
      .ret ({ newSR with SRSCode := "\"a\"".toList, Name := "\"x\"".toList },
        some (.unknownProjCS ["PROJCS".toList, " PROJECTION".toList])) :=
  ⟨rfl, rfl, rfl⟩

/-! ## Datum normalization -/

theorem slice_two (s : Str) (h : 2 ≤ s.length) : slice s 0 2 = .ret (s.take 2) := by
  have h1 : (2 : Int) ≤ (s.length : Int) := by exact_mod_cast h
  simp [slice, h1]

theorem belge_rule_output (x : SR F) :
    Contains (if Contains x.DatumCode "belge".toList then
      { x with DatumCode := "rnb72".toList } else x).DatumCode "belge".toList = false := by
  by_cases hb : Contains x.DatumCode "belge".toList = true
  · rw [if_pos hb]
    show Contains "rnb72".toList "belge".toList = false
    decide
  · rw [if_neg hb]; simpa using hb

theorem Run.bind_ret_eq {α β : Type} (x : Run α) (g : α → β) (b : β)
    (h : x.bind (fun a => .ret (g a)) = .ret b) : ∃ a, x = .ret a ∧ b = g a := by
  cases x with
  | ret a => exact ⟨a, rfl, by simpa using h.symm⟩
  | panic p => simp at h
  | exhausted => simp at h

theorem datumRename_no_belge (sr sr1 : SR F) (h : datumRename sr = .ret sr1) :
    Contains sr1.DatumCode "belge".toList = false := by
  unfold datumRename at h
  cases hsl : slice sr.DatumCode 0 2 with
  | panic p => rw [hsl] at h; simp at h
  | exhausted => rw [hsl] at h; simp at h
  | ret p =>
    rw [hsl, Run.ret_bind] at h
    obtain ⟨a, _, ha⟩ := Run.bind_ret_eq _ _ sr1 h
    rw [ha]
    exact belge_rule_output _

theorem datumRename_settled (sr : SR F) (h : Settled sr.DatumCode) :
    datumRename sr = .ret (if Contains sr.DatumCode "belge".toList then
      { sr with DatumCode := "rnb72".toList } else sr) := by
  obtain ⟨hlen, hd, hz1, hz2, hw, hf, hj⟩ := h
  unfold datumRename
  rw [slice_two _ hlen, Run.ret_bind, if_neg hd, Run.ret_bind]
  have hor := not_or.mpr ⟨hz1, hz2⟩
  simp only [hor, hw, hf, hj, Bool.false_eq_true, if_false]

/-- C6 (as stated, refuted). The code `d_d_abc` is normalized to `d_abc`, and
normalizing `d_abc` gives `abc`: a second application changes the result. -/
theorem datumRename_twice_differs :
    (datumRename { zeroSR with DatumCode := "d_d_abc".toList }).bind
        (fun sr => .ret sr.DatumCode) = .ret "d_abc".toList ∧
    ((datumRename { zeroSR with DatumCode := "d_d_abc".toList }).bind datumRename).bind
        (fun sr => .ret sr.DatumCode) = .ret "abc".toList := by
  decide

/-- C6 (amended). When `datumRename` returns, and the code it leaves has at
least two bytes, no `d_` prefix, is none of the three alias names and has no
`_ferro` or `_jakarta` suffix, a second `datumRename` returns the record
unchanged; in particular `DatumCode` is the same. -/
theorem datumRename_idempotent_of_settled (sr sr1 : SR F)
    (h : datumRename sr = .ret sr1) (hs : Settled sr1.DatumCode) :
    datumRename sr1 = .ret sr1 := by
  rw [datumRename_settled sr1 hs, datumRename_no_belge sr sr1 h]
  simp

theorem datumRename_idempotent_of_settled_witness :
    datumRename { zeroSR with DatumCode := "d_north_american_1983".toList } =
      .ret { zeroSR with DatumCode := "north_american_1983".toList } ∧
    Settled ({ zeroSR with DatumCode := "north_american_1983".toList } : SR Int).DatumCode ∧
    datumRename { zeroSR with DatumCode := "north_american_1983".toList } =
      .ret { zeroSR with DatumCode := "north_american_1983".toList } :=
  ⟨by decide, by decide,
    datumRename_idempotent_of_settled
      { zeroSR with DatumCode := "d_north_american_1983".toList }
      { zeroSR with DatumCode := "north_american_1983".toList } (by decide) (by decide)⟩

/-! ## Parameters -/

theorem index_zero (x : Str) (xs : List Str) : index (x :: xs) 0 = .ret x := rfl

theorem index_one (x y : Str) (xs : List Str) : index (x :: y :: xs) 1 = .ret y := rfl

theorem parameter_case (name s : Str) (L : List Str) (a : SR F) (rest : Res F)
    (h : ∃ sr1 err, rest = .ret (sr1, err) ∧ (err.isSome = true ↔ name ∉ L)) :
    ∃ sr1 err, (if name = s then .ret (a, none) else rest) = .ret (sr1, err) ∧
      (err.isSome = true ↔ name ∉ s :: L) := by
  by_cases hs : name = s
  · exact ⟨a, none, by rw [if_pos hs], by simp [hs]⟩
  · obtain ⟨sr1, err, h1, h2⟩ := h
    exact ⟨sr1, err, by rw [if_neg hs, h1], by rw [h2]; simp [hs]⟩

theorem parseWKTParameter_error_iff (E : Float64 F) (secName : List Str) (secData : Str)
    (sr : SR F) (v0 v1 : Str) (rest : List Str) (hv : Split secData ',' = v0 :: v1 :: rest) :
    ∃ sr1 err, parseWKTParameter E secName secData sr = .ret (sr1, err) ∧
      (err.isSome = true ↔
        ((E.ParseFloat v1).2 = true ∨ Trim (ToLower v0) ['"'] ∉ recognizedParameters)) := by
  unfold parseWKTParameter
  simp only [hv, index_zero, index_one, Run.ret_bind]
  by_cases hp : (E.ParseFloat v1).2 = true
  · rw [if_pos hp]
    exact ⟨_, _, rfl, by simp [hp]⟩
  · rw [if_neg hp]
    simp only [hp, Bool.false_eq_true, false_or]
    generalize Trim (ToLower v0) ['"'] = name
    unfold recognizedParameters
    repeat apply parameter_case
    exact ⟨_, _, rfl, by simp⟩

theorem sectionLoop_append (E : Float64 F) (recur : Section F) (secName : List Str)
    (secData : Str) (os cs : List Nat) :
    ∀ (os1 cs1 : List Nat) (sr sr1 : SR F), os1.length = cs1.length →
      sectionLoop E recur secName secData os1 cs1 sr = .ret (sr1, none) →
      sectionLoop E recur secName secData (os1 ++ os) (cs1 ++ cs) sr =
        sectionLoop E recur secName secData os cs sr1 := by
  intro os1
  induction os1 with
  | nil =>
    intro cs1 sr sr1 hl h
    cases cs1 with
    | nil =>
      simp only [sectionLoop, Run.ret.injEq, Prod.mk.injEq, and_true] at h
      subst h; rfl
    | cons c cs1 => simp at hl
  | cons o os1 ih =>
    intro cs1 sr sr1 hl h
    cases cs1 with
    | nil => simp at hl
    | cons c cs1 =>
      rw [sectionLoop_cons] at h
      rw [List.cons_append, List.cons_append, sectionLoop_cons]
      cases hstep : sectionStep E recur secName secData o c sr with
      | panic p => rw [hstep] at h; simp at h
      | exhausted => rw [hstep] at h; simp at h
      | ret r =>
        obtain ⟨r1, r2⟩ := r
        rw [hstep, Run.ret_bind] at h
        rw [Run.ret_bind]
        cases r2 with
        | some err => simp at h
        | none =>
          simp only at h
          simp only
          exact ih cs1 r1 sr1 (by simpa using hl) h

theorem sectionStep_top_projcs (E : Float64 F) (recur : Section F) (text : Str)
    (o c : Nat) (body nm data : Str) (sr : SR F)
    (hn : sectionName text o = .ret "PROJCS".toList)
    (hb : slice text (o + 1) c = .ret body)
    (hs : splitWKTName body = .ret (nm, data)) :
    sectionStep E recur [] text o c sr =
      recur ["PROJCS".toList] data { sr with SRSCode := nm } := by
  unfold sectionStep
  rw [hn, Run.ret_bind]
  simp only []
  have hb1 : slice text (↑o + 1) ↑c = .ret body := hb
  rw [hb1, Run.ret_bind]
  show (parseWKTProjCS E recur ["PROJCS".toList] body sr) = _
  unfold parseWKTProjCS
  rw [if_pos (show ["PROJCS".toList].length = 1 from rfl), hs, Run.ret_bind]

theorem sectionStep_projcs_parameter (E : Float64 F) (recur : Section F) (data : Str)
    (o c : Nat) (pbody : Str) (sr : SR F)
    (hn : sectionName data o = .ret "PARAMETER".toList)
    (hb : slice data (o + 1) c = .ret pbody) :
    sectionStep E recur ["PROJCS".toList] data o c sr =
      parseWKTParameter E ["PROJCS".toList, "PARAMETER".toList] pbody sr := by
  unfold sectionStep
  rw [hn, Run.ret_bind]
  simp only []
  have hb1 : slice data (↑o + 1) ↑c = .ret pbody := hb
  rw [hb1, Run.ret_bind]
  rfl

theorem parseWKTParameter_unknown_param (E : Float64 F) (secName : List Str) (sr : SR F)
    (h1 : (E.ParseFloat "1".toList).2 = false) :
    parseWKTParameter E secName "\"unknown_param\",1".toList sr =
      .ret (sr, some (.parameterName "unknown_param".toList)) := by
  rw [← withVerdicts_eq E ["1".toList] [] (by simpa using h1) (by simp)]
  rfl

theorem wkt_projcs_parameter_error (E : Float64 F) (newSR : SR F) (text : Str)
    (o0 c0 : Nat) (body nm data : Str) (os1 cs1 : List Nat) (o c : Nat)
    (os2 cs2 : List Nat) (pbody : Str) (sr1 sr2 : SR F) (e : WKTError)
    (htop : findWKTSections text = ([o0], [c0]))
    (hname : sectionName text o0 = .ret "PROJCS".toList)
    (hbody : slice text (o0 + 1) c0 = .ret body)
    (hsplit : splitWKTName body = .ret (nm, data))
    (hsec : findWKTSections data = (os1 ++ o :: os2, cs1 ++ c :: cs2))
    (hl1 : os1.length = cs1.length) (hl2 : os2.length = cs2.length)
    (hearlier : sectionLoop E (parseWKTSection E (text.length - 1)) ["PROJCS".toList] data
      os1 cs1 { newSR with SRSCode := nm } = .ret (sr1, none))
    (hpname : sectionName data o = .ret "PARAMETER".toList)
    (hpbody : slice data (o + 1) c = .ret pbody)
    (hperr : parseWKTParameter E ["PROJCS".toList, "PARAMETER".toList] pbody sr1 =
      .ret (sr2, some e)) :
    wkt E newSR text = .ret (sr2, some e) := by
  have hb := slice_ret_bounds _ _ _ _ hbody
  obtain ⟨n, hn⟩ : ∃ n, text.length = n + 1 := ⟨text.length - 1, by omega⟩
  have hn1 : text.length - 1 = n := by omega
  rw [hn1] at hearlier
  unfold wkt
  rw [parseWKTSection_succ, htop, if_neg (by simp), sectionLoop_cons,
    sectionStep_top_projcs E _ text o0 c0 body nm data newSR hname hbody hsplit, hn,
    parseWKTSection_succ, hsec,
    if_neg (by simp [hl1, hl2]),
    sectionLoop_append E _ _ _ _ _ os1 cs1 _ sr1 hl1 hearlier, sectionLoop_cons,
    sectionStep_projcs_parameter E _ data o c pbody sr1 hpname hpbody, hperr]
  rfl

/-- C9. When the interior of a parameter section has at least two
comma-separated fields, `parseWKTParameter` returns, and it returns an error
exactly when `ParseFloat` rejects the second field or the first field,
lower-cased and then trimmed of double quotes, is not one of the twelve
recognized names.  The interior `"unknown_param",1` gives the unknown-name
error for `unknown_param`.  When a `PARAMETER` section is a direct child of the
`PROJCS` section of the input and the sections in front of it raised no error,
the error `parseWKTParameter` returns is the error `wkt` returns. -/
theorem parseWKTParameter_errors (E : Float64 F)
    (h1 : (E.ParseFloat "1".toList).2 = false) :
    (∀ (secName : List Str) (secData : Str) (sr : SR F) (v0 v1 : Str) (rest : List Str),
      Split secData ',' = v0 :: v1 :: rest →
      ∃ sr1 err, parseWKTParameter E secName secData sr = .ret (sr1, err) ∧
        (err.isSome = true ↔
          ((E.ParseFloat v1).2 = true ∨
            Trim (ToLower v0) ['"'] ∉ recognizedParameters))) ∧
    (∀ (secName : List Str) (sr : SR F),
      parseWKTParameter E secName "\"unknown_param\",1".toList sr =
        .ret (sr, some (.parameterName "unknown_param".toList))) ∧
    (∀ (newSR : SR F) (text : Str) (o0 c0 : Nat) (body nm data : Str)
      (os1 cs1 : List Nat) (o c : Nat) (os2 cs2 : List Nat) (pbody : Str)
      (sr1 sr2 : SR F) (e : WKTError),
      findWKTSections text = ([o0], [c0]) →
      sectionName text o0 = .ret "PROJCS".toList →
      slice text (o0 + 1) c0 = .ret body →
      splitWKTName body = .ret (nm, data) →
      findWKTSections data = (os1 ++ o :: os2, cs1 ++ c :: cs2) →
      os1.length = cs1.length → os2.length = cs2.length →
      sectionLoop E (parseWKTSection E (text.length - 1)) ["PROJCS".toList] data
        os1 cs1 { newSR with SRSCode := nm } = .ret (sr1, none) →
      sectionName data o = .ret "PARAMETER".toList →
      slice data (o + 1) c = .ret pbody →
      parseWKTParameter E ["PROJCS".toList, "PARAMETER".toList] pbody sr1 =
        .ret (sr2, some e) →
      wkt E newSR text = .ret (sr2, some e)) :=
  ⟨fun secName secData sr v0 v1 rest hv =>
      parseWKTParameter_error_iff E secName secData sr v0 v1 rest hv,
    fun secName sr => parseWKTParameter_unknown_param E secName sr h1,
    fun newSR text o0 c0 body nm data os1 cs1 o c os2 cs2 pbody sr1 sr2 e
        htop hname hbody hsplit hsec hl1 hl2 hearlier hpname hpbody hperr =>
      wkt_projcs_parameter_error E newSR text o0 c0 body nm data os1 cs1 o c os2 cs2
        pbody sr1 sr2 e htop hname hbody hsplit hsec hl1 hl2 hearlier hpname hpbody hperr⟩

theorem parseWKTParameter_errors_witness :
    (intFloat64.ParseFloat "1".toList).2 = false ∧
    wkt intFloat64 zeroSR exampleUnknownParam =
      .ret ({ zeroSR with SRSCode := "\"a\"".toList, Name := "\"x\"".toList },
        some (.parameterName "unknown_param".toList)) :=
  ⟨by decide,
    (parseWKTParameter_errors intFloat64 (by decide)).2.2 zeroSR exampleUnknownParam 6 55
      "\"a\",PROJECTION[\"x\"],PARAMETER[\"unknown_param\",1]".toList "\"a\"".toList
      "PROJECTION[\"x\"],PARAMETER[\"unknown_param\",1]".toList [10] [14] 25 43 [] []
      "\"unknown_param\",1".toList
      { zeroSR with SRSCode := "\"a\"".toList, Name := "\"x\"".toList }
      { zeroSR with SRSCode := "\"a\"".toList, Name := "\"x\"".toList }
      (.parameterName "unknown_param".toList)
      (by decide) (by decide) (by decide) (by decide) (by decide) (by decide) (by decide)
      (by decide) (by decide) (by decide) (by decide)⟩

/-! ## Splitting a section interior -/

theorem hasPrefix_singleton (x c : Char) (xs : Str) :
    HasPrefix (x :: xs) [c] = decide (c = x) := by
  by_cases h : c = x <;> simp [HasPrefix, List.isPrefixOf, h]

theorem index_char (c : Char) : ∀ s : Str, c ∈ s →
    ∃ n : Nat, Index s [c] = (n : Int) ∧ n < s.length ∧ c ∉ s.take n ∧
      s.take n ++ c :: s.drop (n + 1) = s := by
  intro s
  induction s with
  | nil => intro h; simp at h
  | cons x xs ih =>
    intro h
    by_cases hx : c = x
    · refine ⟨0, ?_, by simp, by simp, by simp [hx]⟩
      simp [Index, hasPrefix_singleton, hx]
    · have hmem : c ∈ xs := by
        rcases List.mem_cons.mp h with h1 | h1
        · exact absurd h1 hx
        · exact h1
      obtain ⟨n, h1, h2, h3, h4⟩ := ih hmem
      refine ⟨n + 1, ?_, by simpa using h2, ?_, ?_⟩
      · have hn : ¬ ((n : Int) < 0) := by omega
        simp [Index, hasPrefix_singleton, hx, h1, hn]
      · simp only [List.take_succ_cons, List.mem_cons, not_or]
        exact ⟨hx, h3⟩
      · simp only [List.take_succ_cons, List.drop_succ_cons, List.cons_append, h4]

theorem slice_nat (s : Str) (lo hi : Nat) (h1 : lo ≤ hi) (h2 : hi ≤ s.length) :
    slice s lo hi = .ret ((s.drop lo).take (hi - lo)) := by
  unfold slice
  have hc : (0 : Int) ≤ (lo : Int) ∧ (lo : Int) ≤ (hi : Int) ∧ (hi : Int) ≤ (s.length : Int) :=
    ⟨by omega, by omega, by omega⟩
  rw [if_pos hc]
  simp

/-- C16. When the interior of a section holds a comma, `splitWKTName`
returns as name the text in front of the first comma and as data the text
behind it: the name holds no comma, and the name, a comma and the data give
back the interior. -/
theorem splitWKTName_first_comma (secData : Str) (h : ',' ∈ secData) :
    ∃ name data, splitWKTName secData = .ret (name, data) ∧ ',' ∉ name ∧
      name ++ ',' :: data = secData := by
  obtain ⟨n, h1, h2, h3, h4⟩ := index_char ',' secData h
  refine ⟨secData.take n, secData.drop (n + 1), ?_, h3, h4⟩
  unfold splitWKTName
  simp only [h1]
  have hs1 := slice_nat secData 0 n (by omega) (by omega)
  have hs2 := slice_nat secData (n + 1) secData.length (by omega) (by omega)
  simp only [Nat.cast_zero, List.drop_zero, Nat.sub_zero] at hs1
  simp only [Nat.cast_add, Nat.cast_one] at hs2
  rw [hs1, Run.ret_bind, hs2, Run.ret_bind]
  congr 2
  apply List.take_of_length_le
  simp

theorem splitWKTName_first_comma_witness :
    ',' ∈ "\"NAD83\",DATUM[\"x\",1]".toList ∧
    ∃ name data, splitWKTName "\"NAD83\",DATUM[\"x\",1]".toList = .ret (name, data) ∧
      ',' ∉ name ∧ name ++ ',' :: data = "\"NAD83\",DATUM[\"x\",1]".toList :=
  ⟨by decide, splitWKTName_first_comma "\"NAD83\",DATUM[\"x\",1]".toList (by decide)⟩

/-! ## Spheroid -/

theorem index_two (x y z : Str) (xs : List Str) : index (x :: y :: z :: xs) 2 = .ret z := rfl

theorem toLower_length (s : Str) : (ToLower s).length = s.length := by
  simp [ToLower]

theorem international_guard (sr : SR F) (b : Str) :
    (if 13 ≤ b.length then
        (slice b 0 13).bind fun p =>
          (.ret (if ToLower p = "international".toList then
            { sr with Ellps := "intl".toList } else { sr with Ellps := b }) : Run (SR F))
      else .ret { sr with Ellps := b }) =
    .ret { sr with Ellps :=
      (if ToLower (b.take 13) = "international".toList then "intl".toList else b) } := by
  by_cases h : 13 ≤ b.length
  · rw [if_pos h]
    have hs := slice_nat b 0 13 (by omega) h
    simp only [Nat.cast_zero, List.drop_zero, Nat.sub_zero, Nat.cast_ofNat] at hs
    rw [hs, Run.ret_bind]
    by_cases hi : ToLower (b.take 13) = "international".toList
    · rw [if_pos hi, if_pos hi]
    · rw [if_neg hi, if_neg hi]
  · rw [if_neg h]
    have hne : ToLower (b.take 13) ≠ "international".toList := by
      intro heq
      have hl := congrArg List.length heq
      rw [toLower_length, List.length_take] at hl
      have : "international".toList.length = 13 := by decide
      omega
    rw [if_neg hne]

theorem parseWKTSpheroid_three (E : Float64 F) (secName : List Str) (secData : Str)
    (sr : SR F) (d0 d1 d2 : Str) (rest : List Str)
    (hv : Split secData ',' = d0 :: d1 :: d2 :: rest) :
    parseWKTSpheroid E secName secData sr =
      if (E.ParseFloat d1).2 then
        .ret ({ sr with Ellps := ellpsName d0 }, some (.spheroidA d1))
      else if (E.ParseFloat d2).2 then
        .ret ({ sr with Ellps := ellpsName d0, A := (E.ParseFloat d1).1,
                        Rf := (E.ParseFloat d2).1 }, some (.spheroidRf d2))
      else .ret (spheroidDone E sr d0 d1 d2, none) := by
  unfold parseWKTSpheroid
  simp only [hv, index_zero, index_one, index_two, Run.ret_bind]
  rw [international_guard sr, Run.ret_bind]
  by_cases h1 : (E.ParseFloat d1).2 = true
  · rw [if_pos h1, if_pos h1]; rfl
  · rw [if_neg h1, if_neg h1]
    by_cases h2 : (E.ParseFloat d2).2 = true
    · rw [if_pos h2, if_pos h2]; rfl
    · rw [if_neg h2, if_neg h2]
      by_cases h3 : Contains sr.DatumCode "osgb_1936".toList = true
      · simp only [spheroidDone, h3, if_true]; rfl
      · simp only [spheroidDone, h3, if_false]; rfl

theorem replaceGo_of_index_neg (old new : Str) : ∀ s : Str, Index s old < 0 →
    replaceGo old new 0 s = s := by
  intro s
  induction s with
  | nil => intro _; rfl
  | cons c cs ih =>
    intro h
    unfold Index at h
    by_cases hp : HasPrefix (c :: cs) old = true
    · rw [if_pos hp] at h; omega
    · rw [if_neg hp] at h
      have hr : Index cs old < 0 := by
        by_cases hr : Index cs old < 0
        · exact hr
        · simp only [hr, if_false] at h; omega
      unfold replaceGo
      rw [if_neg hp, ih hr]

theorem replace_of_not_contains (s old new : Str) (h : Contains s old = false) :
    Replace s old new = s := by
  unfold Contains at h
  exact replaceGo_of_index_neg old new s (by simpa using h)

theorem ellpsName_unchanged (n : Str) (h1 : Contains n "_19".toList = false)
    (h2 : Contains n "clarke_18".toList = false) (h3 : Contains n "Clarke_18".toList = false)
    (h4 : ToLower (n.take 13) ≠ "international".toList) : ellpsName n = n := by
  unfold ellpsName
  simp only [replace_of_not_contains n _ _ h1, replace_of_not_contains n _ _ h2,
    replace_of_not_contains n _ _ h3, if_neg h4]

/-- C13. When the interior of a spheroid section has at least three
comma-separated fields, `parseWKTSpheroid` returns and the `Ellps` it leaves
is the first field with every `_19` removed, then every `clarke_18` and
`Clarke_18` replaced by `clrk`, and replaced as a whole by `intl` when its
first 13 bytes are `international` in any case.  `International_1924` gives
`intl`, `Clarke_1880` gives `clrk80`, and a name that holds none of `_19`,
`clarke_18`, `Clarke_18` and does not start with `international` is kept as
it is. -/
theorem parseWKTSpheroid_ellps (E : Float64 F) (secName : List Str) (secData : Str)
    (sr : SR F) (d0 d1 d2 : Str) (rest : List Str)
    (hv : Split secData ',' = d0 :: d1 :: d2 :: rest) :
    (∃ sr1 err, parseWKTSpheroid E secName secData sr = .ret (sr1, err) ∧
      sr1.Ellps = ellpsName d0) ∧
    ellpsName "International_1924".toList = "intl".toList ∧
    ellpsName "Clarke_1880".toList = "clrk80".toList ∧
    (∀ n : Str, Contains n "_19".toList = false → Contains n "clarke_18".toList = false →
      Contains n "Clarke_18".toList = false →
      ToLower (n.take 13) ≠ "international".toList → ellpsName n = n) := by
  refine ⟨?_, by decide, by decide, ellpsName_unchanged⟩
  rw [parseWKTSpheroid_three E secName secData sr d0 d1 d2 rest hv]
  by_cases h1 : (E.ParseFloat d1).2 = true
  · rw [if_pos h1]; exact ⟨_, _, rfl, rfl⟩
  · rw [if_neg h1]
    by_cases h2 : (E.ParseFloat d2).2 = true
    · rw [if_pos h2]; exact ⟨_, _, rfl, rfl⟩
    · rw [if_neg h2]; exact ⟨_, _, rfl, rfl⟩

theorem parseWKTSpheroid_ellps_witness :
    Split "International_1924,6378388,297".toList ',' =
      "International_1924".toList :: "6378388".toList :: "297".toList :: [] ∧
    ∃ sr1 err, parseWKTSpheroid intFloat64 [] "International_1924,6378388,297".toList zeroSR =
        .ret (sr1, err) ∧ sr1.Ellps = ellpsName "International_1924".toList :=
  ⟨by decide, (parseWKTSpheroid_ellps intFloat64 [] "International_1924,6378388,297".toList
    zeroSR "International_1924".toList "6378388".toList "297".toList [] (by decide)).1⟩

/-- C19. When the interior of a spheroid section has at least three
comma-separated fields, `parseWKTSpheroid` returns; when it returns no error
the `DatumCode` it leaves is `osgb36` if the `DatumCode` before the call
contained `osgb_1936` and is the `DatumCode` before the call otherwise; when
it returns an error, `DatumCode` is the one before the call. -/
theorem parseWKTSpheroid_datumCode (E : Float64 F) (secName : List Str) (secData : Str)
    (sr : SR F) (d0 d1 d2 : Str) (rest : List Str)
    (hv : Split secData ',' = d0 :: d1 :: d2 :: rest) :
    ∃ sr1 err, parseWKTSpheroid E secName secData sr = .ret (sr1, err) ∧
      (err = none → sr1.DatumCode =
        if Contains sr.DatumCode "osgb_1936".toList then "osgb36".toList
        else sr.DatumCode) ∧
      (err ≠ none → sr1.DatumCode = sr.DatumCode) ∧
      (err = none ↔ (E.ParseFloat d1).2 = false ∧ (E.ParseFloat d2).2 = false) := by
  rw [parseWKTSpheroid_three E secName secData sr d0 d1 d2 rest hv]
  by_cases h1 : (E.ParseFloat d1).2 = true
  · rw [if_pos h1]
    exact ⟨_, _, rfl, by simp, fun _ => rfl, by simp [h1]⟩
  · rw [if_neg h1]
    by_cases h2 : (E.ParseFloat d2).2 = true
    · rw [if_pos h2]
      exact ⟨_, _, rfl, by simp, fun _ => rfl, by simp [h2]⟩
    · rw [if_neg h2]
      exact ⟨_, _, rfl, fun _ => rfl, by simp, by simp [h1, h2]⟩

theorem parseWKTSpheroid_datumCode_witness :
    Split "Airy 1830,6377563,299".toList ',' =
      "Airy 1830".toList :: "6377563".toList :: "299".toList :: [] ∧
    ∃ sr1 err, parseWKTSpheroid intFloat64 [] "Airy 1830,6377563,299".toList
        { zeroSR with DatumCode := "d_osgb_1936".toList } = .ret (sr1, err) ∧
      (err = none → sr1.DatumCode =
        if Contains ({ zeroSR with DatumCode := "d_osgb_1936".toList } : SR Int).DatumCode
            "osgb_1936".toList then "osgb36".toList
        else ({ zeroSR with DatumCode := "d_osgb_1936".toList } : SR Int).DatumCode) ∧
      (err ≠ none → sr1.DatumCode =
        ({ zeroSR with DatumCode := "d_osgb_1936".toList } : SR Int).DatumCode) ∧
      (err = none ↔ (intFloat64.ParseFloat "6377563".toList).2 = false ∧
        (intFloat64.ParseFloat "299".toList).2 = false) :=
  ⟨by decide, parseWKTSpheroid_datumCode intFloat64 []
      "Airy 1830,6377563,299".toList { zeroSR with DatumCode := "d_osgb_1936".toList }
      "Airy 1830".toList "6377563".toList "299".toList [] (by decide)⟩

/-! ## Unit and parameter -/

theorem split_cons (s : Str) (sep : Char) : ∃ v0 rest, Split s sep = v0 :: rest := by
  induction s with
  | nil => exact ⟨[], [], rfl⟩
  | cons c cs ih =>
    obtain ⟨v0, rest, h⟩ := ih
    unfold Split
    by_cases hc : c = sep
    · rw [if_pos hc]; exact ⟨_, _, rfl⟩
    · rw [if_neg hc, h]; exact ⟨_, _, rfl⟩

/-- C17. `parseWKTUnit` returns on every interior.  The `Units` it leaves is
the first comma-separated field in lower case, with `metre` rewritten to
`meter`; no field other than `Units` and `ToMeter` is changed; and `ToMeter`
is not changed when the interior has no second field. -/
theorem parseWKTUnit_units (E : Float64 F) (secName : List Str) (secData : Str)
    (sr : SR F) :
    ∃ sr1 err, parseWKTUnit E secName secData sr = .ret (sr1, err) ∧
      sr1.Units = unitName ((Split secData ',').headD []) ∧
      { sr1 with Units := sr.Units, ToMeter := sr.ToMeter } = sr ∧
      ((Split secData ',').length ≤ 1 → sr1.ToMeter = sr.ToMeter) := by
  obtain ⟨v0, rest, hv⟩ := split_cons secData ','
  unfold parseWKTUnit
  simp only [hv, index_zero, Run.ret_bind, List.headD_cons, List.length_cons]
  have hu : ∀ x : SR F, (if ({ x with Units := ToLower v0 } : SR F).Units = "metre".toList
      then ({ x with Units := "meter".toList } : SR F)
      else { x with Units := ToLower v0 }) = { x with Units := unitName v0 } := by
    intro x
    unfold unitName
    by_cases hm : ToLower v0 = "metre".toList
    · rw [if_pos hm, if_pos hm]
    · rw [if_neg hm, if_neg hm]
  cases rest with
  | nil =>
    rw [if_neg (by simp)]
    exact ⟨_, _, rfl, by rw [hu], by rw [hu], fun _ => by rw [hu]⟩
  | cons v1 rest1 =>
    rw [if_pos (by simp), index_one, Run.ret_bind]
    by_cases hp : (E.ParseFloat v1).2 = true
    · rw [if_pos hp]
      exact ⟨_, _, rfl, by rw [hu], by rw [hu], fun _ => by rw [hu]⟩
    · rw [if_neg hp]
      have hl : ¬ (rest1.length + 1 + 1 ≤ 1) := by omega
      by_cases hn : sr.Name = "longlat".toList
      · rw [hu, if_pos hn]
        exact ⟨_, _, rfl, rfl, rfl, fun h => absurd h hl⟩
      · rw [hu, if_neg hn]
        exact ⟨_, _, rfl, rfl, rfl, fun h => absurd h hl⟩

/-- C15. When the interior of a parameter section has at least two fields,
`ParseFloat` accepts the second with value `v`, and the first field,
lower-cased and trimmed of double quotes, is a recognized name,
`parseWKTParameter` returns no error and the record differs from the one
before the call only as follows: `standard_parallel_1` sets `Lat0` and `Lat1`
to `d2r v`; `standard_parallel_2` sets `Lat2`; `latitude_of_origin`,
`central_parallel` and `latitude_of_center` set `Lat0`; `longitude_of_center`
sets `LongC`; `central_meridian` sets `Long0`; `azimuth` sets `Alpha`, each to
`d2r v`; `scale_factor` sets `K0` to `v`; `false_easting` sets `X0` and
`false_northing` sets `Y0` to `ToMeter * v` with the `ToMeter` of the record
before the call; `auxiliary_sphere_type` changes nothing. -/
theorem parseWKTParameter_effect (E : Float64 F) (secName : List Str) (secData : Str)
    (sr : SR F) (v0 v1 : Str) (rest : List Str)
    (hv : Split secData ',' = v0 :: v1 :: rest) (hp : (E.ParseFloat v1).2 = false) :
    (Trim (ToLower v0) ['"'] = "standard_parallel_1".toList →
      parseWKTParameter E secName secData sr =
        .ret ({ sr with Lat0 := d2r E (E.ParseFloat v1).1,
                        Lat1 := d2r E (E.ParseFloat v1).1 }, none)) ∧
    (Trim (ToLower v0) ['"'] = "standard_parallel_2".toList →
      parseWKTParameter E secName secData sr =
        .ret ({ sr with Lat2 := d2r E (E.ParseFloat v1).1 }, none)) ∧
    (Trim (ToLower v0) ['"'] = "false_easting".toList →
      parseWKTParameter E secName secData sr =
        .ret ({ sr with X0 := E.mul sr.ToMeter (E.ParseFloat v1).1 }, none)) ∧
    (Trim (ToLower v0) ['"'] = "false_northing".toList →
      parseWKTParameter E secName secData sr =
        .ret ({ sr with Y0 := E.mul sr.ToMeter (E.ParseFloat v1).1 }, none)) ∧
    (Trim (ToLower v0) ['"'] = "latitude_of_origin".toList →
      parseWKTParameter E secName secData sr =
        .ret ({ sr with Lat0 := d2r E (E.ParseFloat v1).1 }, none)) ∧
    (Trim (ToLower v0) ['"'] = "central_parallel".toList →
      parseWKTParameter E secName secData sr =
        .ret ({ sr with Lat0 := d2r E (E.ParseFloat v1).1 }, none)) ∧
    (Trim (ToLower v0) ['"'] = "scale_factor".toList →
      parseWKTParameter E secName secData sr =
        .ret ({ sr with K0 := (E.ParseFloat v1).1 }, none)) ∧
    (Trim (ToLower v0) ['"'] = "latitude_of_center".toList →
      parseWKTParameter E secName secData sr =
        .ret ({ sr with Lat0 := d2r E (E.ParseFloat v1).1 }, none)) ∧
    (Trim (ToLower v0) ['"'] = "longitude_of_center".toList →
      parseWKTParameter E secName secData sr =
        .ret ({ sr with LongC := d2r E (E.ParseFloat v1).1 }, none)) ∧
    (Trim (ToLower v0) ['"'] = "central_meridian".toList →
      parseWKTParameter E secName secData sr =
        .ret ({ sr with Long0 := d2r E (E.ParseFloat v1).1 }, none)) ∧
    (Trim (ToLower v0) ['"'] = "azimuth".toList →
      parseWKTParameter E secName secData sr =
        .ret ({ sr with Alpha := d2r E (E.ParseFloat v1).1 }, none)) ∧
    (Trim (ToLower v0) ['"'] = "auxiliary_sphere_type".toList →
      parseWKTParameter E secName secData sr = .ret (sr, none)) := by
  have hp1 : ¬ ((E.ParseFloat v1).2 = true) := by simp [hp]
  refine ⟨?_, ?_, ?_, ?_, ?_, ?_, ?_, ?_, ?_, ?_, ?_, ?_⟩ <;>
    (intro hn
     unfold parseWKTParameter
     simp only [hv, index_zero, index_one, Run.ret_bind]
     rw [if_neg hp1, hn]
     rfl)

theorem parseWKTParameter_effect_witness :
    Split "\"Central_Meridian\",-75".toList ',' =
      "\"Central_Meridian\"".toList :: "-75".toList :: [] ∧
    (intFloat64.ParseFloat "-75".toList).2 = false ∧
    parseWKTParameter intFloat64 [] "\"Central_Meridian\",-75".toList zeroSR =
      .ret ({ zeroSR with Long0 := d2r intFloat64 (intFloat64.ParseFloat "-75".toList).1 },
        none) :=
  ⟨by decide, by decide,
    (parseWKTParameter_effect intFloat64 [] "\"Central_Meridian\",-75".toList zeroSR
      "\"Central_Meridian\"".toList "-75".toList [] (by decide) (by decide)).2.2.2.2.2.2.2.2.2.1
      (by decide)⟩

/-! ## The `belge` rule -/

theorem datumRename_eq_tail (sr : SR F) :
    datumRename sr =
      (slice sr.DatumCode 0 2).bind fun p =>
        (if p = "d_".toList then
            (slice sr.DatumCode 2 sr.DatumCode.length).bind fun r =>
              .ret { sr with DatumCode := r }
          else .ret sr).bind fun sr => .ret (datumTail sr) := rfl

theorem contains_iff_occurs (sub : Str) : ∀ s : Str, Contains s sub = true ↔ sub <:+: s := by
  intro s
  unfold Contains
  induction s with
  | nil =>
    by_cases h : sub = []
    · simp [Index, h]
    · simp [Index, h]
  | cons c cs ih =>
    rw [List.infix_cons_iff]
    unfold Index
    by_cases hp : HasPrefix (c :: cs) sub = true
    · rw [if_pos hp]
      have : sub <+: c :: cs := by
        unfold HasPrefix at hp
        exact List.isPrefixOf_iff_prefix.mp hp
      simp [this]
    · rw [if_neg hp]
      have hnp : ¬ sub <+: c :: cs := by
        intro h
        exact hp (by unfold HasPrefix; exact List.isPrefixOf_iff_prefix.mpr h)
      simp only [hnp, false_or]
      rw [← ih]
      by_cases hr : Index cs sub < 0
      · have : ¬ (0 ≤ Index cs sub) := by omega
        simp [hr, this]
      · have : 0 ≤ Index cs sub := by omega
        have h2 : 0 ≤ Index cs sub + 1 := by omega
        simp [hr, this, h2]

theorem belge_drop_prefix (s : Str) (h : "belge".toList <:+: s)
    (hd : s.take 2 = "d_".toList) : "belge".toList <:+: s.drop 2 := by
  match s, hd with
  | a :: b :: r, hd =>
    simp only [List.take_succ_cons, List.take_zero] at hd
    have ha : a = 'd' := by have := (List.cons.inj hd).1; exact this
    have hb : b = '_' := by have := (List.cons.inj (List.cons.inj hd).2).1; exact this
    subst ha; subst hb
    simp only [List.drop_succ_cons, List.drop_zero]
    rw [List.infix_cons_iff, List.infix_cons_iff] at h
    rcases h with h | h | h
    · exact absurd (List.cons_prefix_cons.mp h).1 (by decide)
    · exact absurd (List.cons_prefix_cons.mp h).1 (by decide)
    · exact h
  | [], hd => exact absurd hd (by decide)
  | [a], hd => exact absurd (congrArg List.length hd) (by simp)

theorem belge_trim_ferro (s : Str) (h : "belge".toList <:+: s)
    (hs : HasSuffix s "_ferro".toList = true) :
    "belge".toList <:+: TrimSuffix s "_ferro".toList := by
  unfold TrimSuffix
  rw [if_pos hs]
  unfold HasSuffix at hs
  obtain ⟨t, ht⟩ := List.isSuffixOf_iff_suffix.mp hs
  subst ht
  have hl : (t ++ "_ferro".toList).length - "_ferro".toList.length = t.length := by simp
  rw [hl, List.take_left]
  rw [← List.reverse_infix] at h ⊢
  have hr : (t ++ "_ferro".toList).reverse =
      'o' :: 'r' :: 'r' :: 'e' :: 'f' :: '_' :: t.reverse := by
    simp
  rw [hr] at h
  have hb : "belge".toList.reverse = ['e', 'g', 'l', 'e', 'b'] := by decide
  rw [hb] at h ⊢
  simpa [List.infix_cons_iff] using h

theorem belge_trim_jakarta (s : Str) (h : "belge".toList <:+: s)
    (hs : HasSuffix s "_jakarta".toList = true) :
    "belge".toList <:+: TrimSuffix s "_jakarta".toList := by
  unfold TrimSuffix
  rw [if_pos hs]
  unfold HasSuffix at hs
  obtain ⟨t, ht⟩ := List.isSuffixOf_iff_suffix.mp hs
  subst ht
  have hl : (t ++ "_jakarta".toList).length - "_jakarta".toList.length = t.length := by simp
  rw [hl, List.take_left]
  rw [← List.reverse_infix] at h ⊢
  have hr : (t ++ "_jakarta".toList).reverse =
      'a' :: 't' :: 'r' :: 'a' :: 'k' :: 'a' :: 'j' :: '_' :: t.reverse := by
    simp
  rw [hr] at h
  have hb : "belge".toList.reverse = ['e', 'g', 'l', 'e', 'b'] := by decide
  rw [hb] at h ⊢
  simpa [List.infix_cons_iff] using h

theorem datumTail_belge (x : SR F) (h : Contains x.DatumCode "belge".toList = true) :
    (datumTail x).DatumCode = "rnb72".toList := by
  have hi := (contains_iff_occurs _ _).mp h
  have hz : ¬ (x.DatumCode = "new_zealand_geodetic_datum_1949".toList ∨
      x.DatumCode = "new_zealand_1949".toList) := by
    rintro (e | e) <;> (rw [e] at h; revert h; decide)
  have hw : ¬ (x.DatumCode = "wgs_1984".toList) := by
    intro e; rw [e] at h; revert h; decide
  unfold datumTail
  simp only [hz, hw, if_false]
  by_cases hf : HasSuffix x.DatumCode "_ferro".toList = true
  · have h1 := belge_trim_ferro _ hi hf
    simp only [hf, if_true]
    by_cases hj : HasSuffix (TrimSuffix x.DatumCode "_ferro".toList) "_jakarta".toList = true
    · have h2 := (contains_iff_occurs _ _).mpr (belge_trim_jakarta _ h1 hj)
      simp only [hj, h2, if_true]
    · have h2 := (contains_iff_occurs _ _).mpr h1
      simp only [hj, h2, if_true, if_false, Bool.false_eq_true]
  · simp only [hf, if_false, Bool.false_eq_true]
    by_cases hj : HasSuffix x.DatumCode "_jakarta".toList = true
    · have h2 := (contains_iff_occurs _ _).mpr (belge_trim_jakarta _ hi hj)
      simp only [hj, h2, if_true]
    · simp only [hj, h, if_true, if_false, Bool.false_eq_true]

/-- C18. When the datum code of the record contains `belge`, `datumRename`
returns and leaves `DatumCode` equal to `rnb72`. -/
theorem datumRename_belge (sr : SR F) (h : Contains sr.DatumCode "belge".toList = true) :
    ∃ sr1, datumRename sr = .ret sr1 ∧ sr1.DatumCode = "rnb72".toList := by
  have hi := (contains_iff_occurs _ _).mp h
  have hlen : 5 ≤ sr.DatumCode.length := by
    have := hi.length_le
    have h5 : "belge".toList.length = 5 := by decide
    omega
  rw [datumRename_eq_tail, slice_two _ (by omega), Run.ret_bind]
  by_cases hd : sr.DatumCode.take 2 = "d_".toList
  · rw [if_pos hd]
    have hs := slice_nat sr.DatumCode 2 sr.DatumCode.length (by omega) (Nat.le_refl _)
    simp only [Nat.cast_ofNat] at hs
    rw [hs, Run.ret_bind, Run.ret_bind]
    refine ⟨_, rfl, datumTail_belge _ ?_⟩
    apply (contains_iff_occurs _ _).mpr
    show "belge".toList <:+: (sr.DatumCode.drop 2).take (sr.DatumCode.length - 2)
    rw [List.take_of_length_le (by simp)]
    exact belge_drop_prefix _ hi hd
  · rw [if_neg hd, Run.ret_bind]
    exact ⟨_, rfl, datumTail_belge _ h⟩

theorem datumRename_belge_witness :
    Contains ({ zeroSR with DatumCode := "d_reseau_national_belge_1972_ferro".toList } :
      SR Int).DatumCode "belge".toList = true ∧
    ∃ sr1, datumRename { zeroSR with DatumCode := "d_reseau_national_belge_1972_ferro".toList }
        = .ret sr1 ∧ sr1.DatumCode = "rnb72".toList :=
  ⟨by decide, datumRename_belge
    { zeroSR with DatumCode := "d_reseau_national_belge_1972_ferro".toList } (by decide)⟩

/-! ## Properties of returned values -/

theorem Run.All.retI {α : Type} {P : α → Prop} {a : α} (h : P a) : Run.All P (.ret a) := by
  intro b hb
  cases hb
  exact h

theorem Run.All.panicI {α : Type} {P : α → Prop} (p : Panic) :
    Run.All P (.panic p : Run α) := by
  intro b hb; cases hb

theorem Run.All.exhaustedI {α : Type} {P : α → Prop} : Run.All P (.exhausted : Run α) := by
  intro b hb; cases hb

theorem Run.All.bindI {α β : Type} {P : β → Prop} {x : Run α} {f : α → Run β}
    (h : ∀ a, x = .ret a → Run.All P (f a)) : Run.All P (x.bind f) := by
  cases x with
  | ret a => simpa using h a rfl
  | panic p => exact Run.All.panicI p
  | exhausted => exact Run.All.exhaustedI

theorem Run.All.iteI {α : Type} {P : α → Prop} {c : Prop} [Decidable c] {a b : Run α}
    (h1 : c → Run.All P a) (h2 : ¬ c → Run.All P b) : Run.All P (if c then a else b) := by
  by_cases hc : c
  · rw [if_pos hc]; exact h1 hc
  · rw [if_neg hc]; exact h2 hc

theorem Run.All.mono {α : Type} {P Q : α → Prop} {x : Run α} (h : Run.All P x)
    (hpq : ∀ a, P a → Q a) : Run.All Q x :=
  fun a ha => hpq a (h a ha)

theorem parseWKTSpheroid_not_malformed (E : Float64 F) (secName : List Str)
    (secData : Str) (sr : SR F) :
    Run.All (fun res => ∀ t, res.2 ≠ some (.malformed t))
      (parseWKTSpheroid E secName secData sr) := by
  unfold parseWKTSpheroid
  simp only []
  refine Run.All.bindI fun d0 _ => Run.All.bindI fun sr1 _ => Run.All.bindI fun d1 _ => ?_
  refine Run.All.iteI (fun _ => Run.All.retI (by simp)) fun _ => ?_
  refine Run.All.bindI fun d2 _ => ?_
  exact Run.All.iteI (fun _ => Run.All.retI (by simp)) fun _ => Run.All.retI (by simp)

theorem parseWKTParameter_not_malformed (E : Float64 F) (secName : List Str)
    (secData : Str) (sr : SR F) :
    Run.All (fun res => ∀ t, res.2 ≠ some (.malformed t))
      (parseWKTParameter E secName secData sr) := by
  unfold parseWKTParameter
  simp only []
  refine Run.All.bindI fun v0 _ => Run.All.bindI fun v1 _ => ?_
  repeat' (apply Run.All.iteI <;> intro _)
  all_goals exact Run.All.retI (by simp)

theorem parseWKTPrimeM_not_malformed (secName : List Str) (secData : Str) (sr : SR F) :
    Run.All (fun res => ∀ t, res.2 ≠ some (.malformed t))
      (parseWKTPrimeM secName secData sr) := by
  unfold parseWKTPrimeM
  simp only []
  refine Run.All.bindI fun v0 _ => ?_
  exact Run.All.iteI (fun _ => Run.All.retI (by simp)) fun _ => Run.All.retI (by simp)

theorem parseWKTUnit_not_malformed (E : Float64 F) (secName : List Str)
    (secData : Str) (sr : SR F) :
    Run.All (fun res => ∀ t, res.2 ≠ some (.malformed t))
      (parseWKTUnit E secName secData sr) := by
  unfold parseWKTUnit
  simp only []
  refine Run.All.bindI fun v0 _ => ?_
  refine Run.All.iteI (fun _ => ?_) fun _ => Run.All.retI (by simp)
  refine Run.All.bindI fun v1 _ => ?_
  repeat' (apply Run.All.iteI <;> intro _)
  all_goals exact Run.All.retI (by simp)

/-! ## Where a malformed-section error can come from -/

theorem parseWKTDatum_malformed (E : Float64 F) (r : Section F) (secName : List Str)
    (secData : Str) (sr : SR F)
    (hr : ∀ (nm : List Str) (data : Str) (sr : SR F),
      Run.All (fun res => ∀ t, res.2 = some (.malformed t) → t.length ≤ data.length)
        (r nm data sr)) :
    Run.All (fun res => ∀ t, res.2 = some (.malformed t) → t.length < secData.length)
      (parseWKTDatum E r secName secData sr) := by
  unfold parseWKTDatum
  refine Run.All.bindI fun last _ => Run.All.iteI (fun _ => ?_) fun _ => ?_
  · refine Run.All.bindI fun nd hnd => Run.All.bindI fun sr1 _ => ?_
    refine (hr secName nd.2 sr1).mono fun res h t ht => ?_
    have := splitWKTName_length secData nd.1 nd.2 hnd
    have := h t ht
    omega
  · refine Run.All.iteI (fun _ => ?_) fun _ => Run.All.retI (by simp)
    exact (parseWKTSpheroid_not_malformed E secName secData sr).mono
      fun res h t ht => absurd ht (h t)

theorem parseWKTGeoCS_malformed (E : Float64 F) (r : Section F) (secName : List Str)
    (secData : Str) (sr : SR F)
    (hr : ∀ (nm : List Str) (data : Str) (sr : SR F),
      Run.All (fun res => ∀ t, res.2 = some (.malformed t) → t.length ≤ data.length)
        (r nm data sr)) :
    Run.All (fun res => ∀ t, res.2 = some (.malformed t) → t.length < secData.length)
      (parseWKTGeoCS E r secName secData sr) := by
  unfold parseWKTGeoCS
  refine Run.All.bindI fun last _ => Run.All.iteI (fun _ => ?_) fun _ => ?_
  · refine Run.All.bindI fun nd hnd => Run.All.bindI fun sr1 _ => ?_
    refine (hr secName nd.2 sr1).mono fun res h t ht => ?_
    have := splitWKTName_length secData nd.1 nd.2 hnd
    have := h t ht
    omega
  · exact Run.All.iteI (fun _ => parseWKTDatum_malformed E r secName secData sr hr)
      fun _ => Run.All.retI (by simp)

theorem parseWKTProjCS_malformed (E : Float64 F) (r : Section F) (secName : List Str)
    (secData : Str) (sr : SR F)
    (hr : ∀ (nm : List Str) (data : Str) (sr : SR F),
      Run.All (fun res => ∀ t, res.2 = some (.malformed t) → t.length ≤ data.length)
        (r nm data sr)) :
    Run.All (fun res => ∀ t, res.2 = some (.malformed t) → t.length < secData.length)
      (parseWKTProjCS E r secName secData sr) := by
  unfold parseWKTProjCS
  refine Run.All.iteI (fun _ => ?_) fun _ => ?_
  · refine Run.All.bindI fun nd hnd => ?_
    refine (hr secName nd.2 _).mono fun res h t ht => ?_
    have := splitWKTName_length secData nd.1 nd.2 hnd
    have := h t ht
    omega
  · refine Run.All.bindI fun k _ => Run.All.iteI (fun _ => ?_) fun _ => ?_
    · exact Run.All.bindI fun res _ => Run.All.retI (by simp)
    · refine Run.All.iteI (fun _ => ?_) fun _ => Run.All.iteI
        (fun _ => Run.All.retI (by simp)) fun _ => Run.All.iteI (fun _ => ?_) fun _ =>
          Run.All.iteI (fun _ => ?_) fun _ => Run.All.retI (by simp)
      · exact (parseWKTPrimeM_not_malformed secName secData sr).mono
          fun res h t ht => absurd ht (h t)
      · exact (parseWKTParameter_not_malformed E secName secData sr).mono
          fun res h t ht => absurd ht (h t)
      · exact (parseWKTUnit_not_malformed E secName secData sr).mono
          fun res h t ht => absurd ht (h t)

theorem sectionStep_malformed (E : Float64 F) (r : Section F) (secName : List Str)
    (secData : Str) (o c : Nat) (sr : SR F)
    (hr : ∀ (nm : List Str) (data : Str) (sr : SR F),
      Run.All (fun res => ∀ t, res.2 = some (.malformed t) → t.length ≤ data.length)
        (r nm data sr)) :
    Run.All (fun res => ∀ t, res.2 = some (.malformed t) → t.length < secData.length)
      (sectionStep E r secName secData o c sr) := by
  unfold sectionStep
  refine Run.All.bindI fun name _ => Run.All.bindI fun body hbody => ?_
  have hlen : body.length ≤ secData.length := by
    have hb := slice_ret_bounds _ _ _ _ hbody
    have hl := slice_ret_length _ _ _ _ hbody
    omega
  refine Run.All.bindI fun top _ => Run.All.iteI (fun _ => ?_) fun _ => ?_
  · exact (parseWKTProjCS_malformed E r _ body sr hr).mono
      fun res h t ht => Nat.lt_of_lt_of_le (h t ht) hlen
  · refine Run.All.iteI (fun _ => ?_) fun _ => ?_
    · exact (parseWKTGeoCS_malformed E r _ body _ hr).mono
        fun res h t ht => Nat.lt_of_lt_of_le (h t ht) hlen
    · exact Run.All.iteI (fun _ => Run.All.retI (by simp)) fun _ => Run.All.retI (by simp)

theorem sectionLoop_malformed (E : Float64 F) (r : Section F) (secName : List Str)
    (secData : Str)
    (hr : ∀ (nm : List Str) (data : Str) (sr : SR F),
      Run.All (fun res => ∀ t, res.2 = some (.malformed t) → t.length ≤ data.length)
        (r nm data sr)) :
    ∀ (os cs : List Nat) (sr : SR F),
      Run.All (fun res => ∀ t, res.2 = some (.malformed t) → t.length < secData.length)
        (sectionLoop E r secName secData os cs sr) := by
  intro os
  induction os with
  | nil => intro cs sr; exact Run.All.retI (by simp)
  | cons o os ih =>
    intro cs sr
    cases cs with
    | nil => exact Run.All.panicI _
    | cons c cs =>
      rw [sectionLoop_cons]
      refine Run.All.bindI fun res hres => ?_
      have hstep := sectionStep_malformed E r secName secData o c sr hr res hres
      cases hr2 : res.2 with
      | some err =>
        refine Run.All.retI ?_
        intro t ht
        exact hstep t (by rw [hr2]; exact ht)
      | none => exact ih cs res.1

theorem parseWKTSection_malformed_le (E : Float64 F) :
    ∀ (n : Nat) (secName : List Str) (secData : Str) (sr : SR F),
      Run.All (fun res => ∀ t, res.2 = some (.malformed t) → t.length ≤ secData.length)
        (parseWKTSection E n secName secData sr) := by
  intro n
  induction n with
  | zero => intro secName secData sr; exact Run.All.exhaustedI
  | succ n ih =>
    intro secName secData sr
    rw [parseWKTSection_succ]
    refine Run.All.iteI (fun _ => Run.All.retI ?_) fun _ => ?_
    · intro t ht
      simp only [Option.some.injEq, WKTError.malformed.injEq] at ht
      rw [← ht]
    · exact (sectionLoop_malformed E _ secName secData ih _ _ sr).mono
        fun res h t ht => Nat.le_of_lt (h t ht)

theorem parseWKTSection_not_malformed (E : Float64 F) (n : Nat) (secName : List Str)
    (secData : Str) (sr sr1 : SR F) (h : ¬ secData.count ']' < secData.count '[') :
    parseWKTSection E n secName secData sr ≠ .ret (sr1, some (.malformed secData)) := by
  intro heq
  cases n with
  | zero => cases heq
  | succ n =>
    rw [parseWKTSection_succ] at heq
    have hlen := findWKTSections_length secData
    rw [if_neg h] at hlen
    rw [if_neg (by simp [hlen])] at heq
    have := sectionLoop_malformed E _ secName secData (parseWKTSection_malformed_le E n)
      _ _ sr _ heq secData rfl
    omega

/-- C20. For every span, `findWKTSections` returns at most one open offset
more than close offsets and never fewer; the two lengths differ exactly when
the span holds strictly more `[` than `]`.  In that case `parseWKTSection`
reports the span as malformed; in the other case, whatever surplus or
misplaced `]` the span holds, `parseWKTSection` never returns the
malformed-section error for this span. -/
theorem findWKTSections_length_relation (s : Str) :
    (findWKTSections s).2.length ≤ (findWKTSections s).1.length ∧
    (findWKTSections s).1.length ≤ (findWKTSections s).2.length + 1 ∧
    ((findWKTSections s).1.length ≠ (findWKTSections s).2.length ↔
      s.count ']' < s.count '[') ∧
    (∀ (E : Float64 F) (fuel : Nat) (secName : List Str) (sr : SR F),
      s.count ']' < s.count '[' →
      parseWKTSection E (fuel + 1) secName s sr = .ret (sr, some (.malformed s))) ∧
    (∀ (E : Float64 F) (fuel : Nat) (secName : List Str) (sr sr1 : SR F),
      ¬ s.count ']' < s.count '[' →
      parseWKTSection E fuel secName s sr ≠ .ret (sr1, some (.malformed s))) := by
  have hlen := findWKTSections_length s
  refine ⟨by omega, ?_, ?_, ?_, ?_⟩
  · rw [hlen]; split <;> omega
  · rw [hlen]; split <;> simp_all
  · intro E fuel secName sr h
    exact parseWKTSection_succ_malformed E fuel secName s sr h
  · intro E fuel secName sr sr1 h
    exact parseWKTSection_not_malformed E fuel secName s sr sr1 h

/-! ## A single local coordinate system -/

theorem depth_cons (c : Char) (X : Str) (p : Nat) :
    depth (c :: X) (p + 1) =
      (if c = '[' then 1 else if c = ']' then -1 else 0) + depth X p := by
  unfold depth
  simp only [List.take_succ_cons, List.count_cons]
  by_cases h1 : c = '['
  · subst h1; simp; omega
  · by_cases h2 : c = ']'
    · subst h2; simp; omega
    · simp [h1, h2]

theorem findLoop_open (rest : Str) (i : Nat) (nest : Int) (op cl : List Nat) :
    findLoop ('[' :: rest) i nest op cl =
      findLoop rest (i + 1) (nest + 1) (if nest = 0 then op ++ [i] else op) cl := by
  simp [findLoop]

theorem findLoop_close (rest : Str) (i : Nat) (nest : Int) (op cl : List Nat) :
    findLoop (']' :: rest) i nest op cl =
      findLoop rest (i + 1) (nest - 1) op (if nest - 1 = 0 then cl ++ [i] else cl) := by
  simp [findLoop]

theorem findLoop_other (c : Char) (rest : Str) (i : Nat) (nest : Int) (op cl : List Nat)
    (h1 : c ≠ '[') (h2 : c ≠ ']') :
    findLoop (c :: rest) i nest op cl = findLoop rest (i + 1) nest op cl := by
  simp [findLoop, h1, h2]

theorem findLoop_nested_skip : ∀ (X rest : Str) (i : Nat) (nest : Int) (op cl : List Nat),
    (∀ p, p ≤ X.length → 1 ≤ nest + depth X p) →
    findLoop (X ++ rest) i nest op cl =
      findLoop rest (i + X.length) (nest + depth X X.length) op cl := by
  intro X
  induction X with
  | nil => intro rest i nest op cl _; simp [depth]
  | cons c X ih =>
    intro rest i nest op cl h
    have h0 : 1 ≤ nest := by simpa [depth] using h 0 (by simp)
    have h1 := h 1 (by simp)
    rw [depth_cons, depth_zero] at h1
    have hrec : ∀ p, p ≤ X.length →
        1 ≤ (nest + (if c = '[' then 1 else if c = ']' then -1 else 0)) + depth X p := by
      intro p hp
      have := h (p + 1) (by simpa using hp)
      rw [depth_cons] at this
      omega
    have key := ih rest (i + 1) _ op cl hrec
    rw [List.cons_append, List.length_cons, depth_cons]
    have hidx : i + 1 + X.length = i + (X.length + 1) := by omega
    have hne : ¬ nest = 0 := by omega
    by_cases hc1 : c = '['
    · subst hc1
      simp only [if_true] at key ⊢
      rw [findLoop_open, if_neg hne, key, hidx, Int.add_assoc]
    · by_cases hc2 : c = ']'
      · subst hc2
        simp only [hc1, if_false, if_true] at key h1 ⊢
        have hne1 : ¬ nest - 1 = 0 := by omega
        have e1 : nest + -1 = nest - 1 := by omega
        rw [e1] at key
        rw [findLoop_close, if_neg hne1, key, hidx, ← e1, Int.add_assoc]
      · simp only [hc1, hc2, if_false] at key ⊢
        rw [findLoop_other c _ _ _ _ _ hc1 hc2]
        rw [Int.add_zero] at key
        rw [key, hidx, Int.zero_add]

theorem findWKTSections_local_cs (interior : Str) (h : Nested interior) :
    findWKTSections ("LOCAL_CS[".toList ++ interior ++ "]".toList) =
      ([8], [9 + interior.length]) := by
  have e : ∀ Y : Str, findLoop ("LOCAL_CS[".toList ++ Y) 0 0 [] [] = findLoop Y 9 1 [8] [] :=
    fun _ => rfl
  have hp : ∀ p, p ≤ interior.length → 1 ≤ (1 : Int) + depth interior p := by
    intro p hp
    have := h.1 p hp
    unfold depth
    omega
  have hd : depth interior interior.length = 0 := by
    rw [depth_length, h.2]; omega
  unfold findWKTSections
  rw [List.append_assoc, e, findLoop_nested_skip interior _ 9 1 [8] [] hp, hd]
  simp [findLoop]

theorem wkt_single_local_cs (E : Float64 F) (newSR : SR F) (text : Str) (o c : Nat)
    (h : findWKTSections text = ([o], [c]))
    (hn : sectionName text o = .ret "LOCAL_CS".toList) :
    wkt E newSR text =
      .ret ({ newSR with Name := "identity".toList, local_ := true }, none) := by
  have inv := findWKTSections_inv text
  rw [h] at inv
  have m := inv.pair 0 o c rfl rfl
  have hc : c < text.length := (List.getElem?_eq_some.mp m.2.1).1
  have hs := slice_nat text (o + 1) c (by have := m.2.2.1; omega) (by omega)
  simp only [Nat.cast_add, Nat.cast_one] at hs
  unfold wkt
  rw [parseWKTSection_succ, h, if_neg (by simp), sectionLoop_cons]
  unfold sectionStep
  rw [hn, Run.ret_bind, hs, Run.ret_bind]
  rfl

/-- C12. When the only top-level section of the input is named `LOCAL_CS`,
`wkt` returns no error and the record `newSR()` with `Name` set to `identity`
and `local` set to true, whatever the interior of the section is.  This is the
case of every input `LOCAL_CS[` interior `]` whose interior has properly
nested brackets. -/
theorem wkt_local_cs (E : Float64 F) (newSR : SR F) :
    (∀ (text : Str) (o c : Nat), findWKTSections text = ([o], [c]) →
      sectionName text o = .ret "LOCAL_CS".toList →
      wkt E newSR text =
        .ret ({ newSR with Name := "identity".toList, local_ := true }, none)) ∧
    (∀ interior : Str, Nested interior →
      wkt E newSR ("LOCAL_CS[".toList ++ interior ++ "]".toList) =
        .ret ({ newSR with Name := "identity".toList, local_ := true }, none)) := by
  refine ⟨fun text o c h hn => wkt_single_local_cs E newSR text o c h hn, ?_⟩
  intro interior hi
  refine wkt_single_local_cs E newSR _ 8 (9 + interior.length)
    (findWKTSections_local_cs interior hi) ?_
  unfold sectionName
  have hs := slice_nat ("LOCAL_CS[".toList ++ interior ++ "]".toList) 0 8 (by omega)
    (by simp)
  simp only [Nat.cast_zero] at hs
  rw [hs, Run.ret_bind]
  rfl

theorem wkt_local_cs_witness :
    Nested "\"x\",FOO[[1],,]".toList ∧
    wkt intFloat64 zeroSR ("LOCAL_CS[".toList ++ "\"x\",FOO[[1],,]".toList ++ "]".toList) =
      .ret ({ zeroSR with Name := "identity".toList, local_ := true }, none) :=
  ⟨by decide, (wkt_local_cs intFloat64 zeroSR).2 "\"x\",FOO[[1],,]".toList (by decide)⟩

/-- C14 (what the code does for a prime meridian inside `GEOGCS`). On a
projected CRS whose `GEOGCS` child holds the section `PRIMEM["Paris",2.33]`,
`wkt` returns no error: the section is not handed to `parseWKTPrimeM`, and the
unknown-section error `parseWKTGeoCS` returns for it is dropped by
`parseWKTProjCS`.  As a direct child of `PROJCS` the same section is
rejected. -/
theorem wkt_primem_below_geogcs (E : Float64 F) (newSR : SR F) :
    (∃ sr, wkt E newSR "PROJCS[\"a\",GEOGCS[\"b\",PRIMEM[\"Paris\",2.33]]]".toList =
      .ret (sr, none)) ∧
    (∃ sr, wkt E newSR "PROJCS[\"a\",PRIMEM[\"Paris\",2.33]]".toList =
      .ret (sr, some (.primeM "\"paris\"".toList))) :=
  ⟨⟨_, rfl⟩, ⟨_, rfl⟩⟩

/-! ## The `local` flag -/

theorem Run.All.bind_of {α β : Type} (Q : α → Prop) {P : β → Prop} {x : Run α}
    {f : α → Run β} (hx : Run.All Q x) (h : ∀ a, Q a → Run.All P (f a)) :
    Run.All P (x.bind f) :=
  Run.All.bindI fun a ha => h a (hx a ha)

theorem ite_local {c : Prop} [Decidable c] (a b : SR F) (v : Bool)
    (ha : a.local_ = v) (hb : b.local_ = v) : (if c then a else b).local_ = v := by
  split
  · exact ha
  · exact hb

theorem datumTail_eq_steps (x : SR F) :
    datumTail x =
      datumBelge (datumStrip "_jakarta".toList (datumStrip "_ferro".toList
        (datumWgs (datumAlias x)))) := rfl

theorem datumStrip_local (suf : Str) (x : SR F) : (datumStrip suf x).local_ = x.local_ :=
  ite_local _ _ _ rfl rfl

theorem datumTail_local (x : SR F) : (datumTail x).local_ = x.local_ := by
  rw [datumTail_eq_steps]
  have h1 : (datumAlias x).local_ = x.local_ := ite_local _ _ _ rfl rfl
  have h2 : (datumWgs (datumAlias x)).local_ = x.local_ :=
    ite_local _ _ _ (ite_local _ _ _ h1 h1) h1
  have h3 := datumStrip_local "_ferro".toList (datumWgs (datumAlias x))
  have h4 := datumStrip_local "_jakarta".toList
    (datumStrip "_ferro".toList (datumWgs (datumAlias x)))
  exact ite_local _ _ _ (by rw [h4, h3, h2]) (by rw [h4, h3, h2])

theorem datumRename_local (sr : SR F) :
    Run.All (fun sr1 => sr1.local_ = sr.local_) (datumRename sr) := by
  rw [datumRename_eq_tail]
  refine Run.All.bindI fun p _ => ?_
  refine Run.All.bind_of (fun a => a.local_ = sr.local_) ?_
    (fun a ha => Run.All.retI (by rw [datumTail_local, ha]))
  exact Run.All.iteI (fun _ => Run.All.bindI fun r _ => Run.All.retI rfl)
    fun _ => Run.All.retI rfl

theorem parseWKTSpheroid_local (E : Float64 F) (secName : List Str)
    (secData : Str) (sr : SR F) :
    Run.All (fun res => res.1.local_ = sr.local_)
      (parseWKTSpheroid E secName secData sr) := by
  unfold parseWKTSpheroid
  simp only []
  refine Run.All.bindI fun d0 _ => ?_
  refine Run.All.bind_of (fun a => a.local_ = sr.local_) ?_ fun a ha => ?_
  · refine Run.All.iteI (fun _ => Run.All.bindI fun p _ => Run.All.retI ?_)
      fun _ => Run.All.retI rfl
    exact ite_local _ _ _ rfl rfl
  · refine Run.All.bindI fun d1 _ => Run.All.iteI (fun _ => Run.All.retI ha) fun _ => ?_
    refine Run.All.bindI fun d2 _ => Run.All.iteI (fun _ => Run.All.retI ha) fun _ => ?_
    refine Run.All.retI ?_
    show SR.local_ (if Contains _ "osgb_1936".toList = true then _ else _) = _
    exact ite_local _ _ _ ha ha

theorem parseWKTParameter_local (E : Float64 F) (secName : List Str)
    (secData : Str) (sr : SR F) :
    Run.All (fun res => res.1.local_ = sr.local_)
      (parseWKTParameter E secName secData sr) := by
  unfold parseWKTParameter
  simp only []
  refine Run.All.bindI fun v0 _ => Run.All.bindI fun v1 _ => ?_
  repeat' (apply Run.All.iteI <;> intro _)
  all_goals exact Run.All.retI rfl

theorem parseWKTPrimeM_local (secName : List Str) (secData : Str) (sr : SR F) :
    Run.All (fun res => res.1.local_ = sr.local_) (parseWKTPrimeM secName secData sr) := by
  unfold parseWKTPrimeM
  simp only []
  refine Run.All.bindI fun v0 _ => ?_
  exact Run.All.iteI (fun _ => Run.All.retI rfl) fun _ => Run.All.retI rfl

theorem parseWKTUnit_local (E : Float64 F) (secName : List Str)
    (secData : Str) (sr : SR F) :
    Run.All (fun res => res.1.local_ = sr.local_) (parseWKTUnit E secName secData sr) := by
  unfold parseWKTUnit
  simp only []
  have hu : ∀ v0 : Str, (if ({ sr with Units := ToLower v0 } : SR F).Units = "metre".toList
      then ({ sr with Units := "meter".toList } : SR F)
      else { sr with Units := ToLower v0 }).local_ = sr.local_ :=
    fun v0 => ite_local _ _ _ rfl rfl
  refine Run.All.bindI fun v0 _ => ?_
  refine Run.All.iteI (fun _ => ?_) fun _ => Run.All.retI (hu v0)
  refine Run.All.bindI fun v1 _ => ?_
  refine Run.All.iteI (fun _ => Run.All.retI (hu v0)) fun _ => ?_
  exact Run.All.iteI (fun _ => Run.All.retI (hu v0)) fun _ => Run.All.retI (hu v0)

theorem parseWKTDatum_local (E : Float64 F) (r : Section F) (secName : List Str)
    (secData : Str) (sr : SR F)
    (hr : ∀ (data : Str) (sr : SR F),
      Run.All (fun res => res.1.local_ = sr.local_) (r secName data sr)) :
    Run.All (fun res => res.1.local_ = sr.local_)
      (parseWKTDatum E r secName secData sr) := by
  unfold parseWKTDatum
  refine Run.All.bindI fun last _ => Run.All.iteI (fun _ => ?_) fun _ => ?_
  · refine Run.All.bindI fun nd _ => ?_
    refine Run.All.bind_of (fun a => a.local_ = sr.local_) (datumRename_local _) fun a ha => ?_
    exact (hr nd.2 a).mono fun res h => h.trans ha
  · exact Run.All.iteI (fun _ => parseWKTSpheroid_local E secName secData sr)
      fun _ => Run.All.retI rfl

theorem parseWKTGeoCS_local (E : Float64 F) (r : Section F) (secName : List Str)
    (secData : Str) (sr : SR F)
    (hr : ∀ (data : Str) (sr : SR F),
      Run.All (fun res => res.1.local_ = sr.local_) (r secName data sr)) :
    Run.All (fun res => res.1.local_ = sr.local_)
      (parseWKTGeoCS E r secName secData sr) := by
  unfold parseWKTGeoCS
  refine Run.All.bindI fun last _ => Run.All.iteI (fun _ => ?_) fun _ => ?_
  · refine Run.All.bindI fun nd _ => ?_
    refine Run.All.bind_of (fun a => a.local_ = sr.local_) (datumRename_local _) fun a ha => ?_
    exact (hr nd.2 a).mono fun res h => h.trans ha
  · exact Run.All.iteI (fun _ => parseWKTDatum_local E r secName secData sr hr)
      fun _ => Run.All.retI rfl

theorem parseWKTProjCS_local (E : Float64 F) (r : Section F) (secName : List Str)
    (secData : Str) (sr : SR F)
    (hr : ∀ (data : Str) (sr : SR F),
      Run.All (fun res => res.1.local_ = sr.local_) (r secName data sr)) :
    Run.All (fun res => res.1.local_ = sr.local_)
      (parseWKTProjCS E r secName secData sr) := by
  unfold parseWKTProjCS
  refine Run.All.iteI (fun _ => ?_) fun _ => ?_
  · exact Run.All.bindI fun nd _ => hr nd.2 _
  · refine Run.All.bindI fun k _ => Run.All.iteI (fun _ => ?_) fun _ => ?_
    · exact Run.All.bind_of (fun res => res.1.local_ = sr.local_)
        (parseWKTGeoCS_local E r secName secData sr hr) fun res h => Run.All.retI h
    · exact Run.All.iteI (fun _ => parseWKTPrimeM_local secName secData sr) fun _ =>
        Run.All.iteI (fun _ => Run.All.retI rfl) fun _ =>
        Run.All.iteI (fun _ => parseWKTParameter_local E secName secData sr) fun _ =>
        Run.All.iteI (fun _ => parseWKTUnit_local E secName secData sr) fun _ =>
        Run.All.retI rfl

theorem NotLocal.append {secName : List Str} (h : NotLocal secName) (name : Str) :
    NotLocal (secName ++ [name]) := by
  obtain ⟨k, rest, h1, h2⟩ := h
  exact ⟨k, rest ++ [name], by rw [h1]; rfl, h2⟩

theorem NotLocal.top_ne {secName : List Str} (h : NotLocal secName) (top : Str)
    (ht : index secName 0 = .ret top) : top ≠ "LOCAL_CS".toList := by
  obtain ⟨k, rest, h1, h2⟩ := h
  subst h1
  have : (Run.ret k : Run Str) = .ret top := ht
  cases this
  exact h2

theorem sectionStep_local (E : Float64 F) (r : Section F) (secName : List Str)
    (secData : Str) (o c : Nat) (sr : SR F) (hn : NotLocal secName)
    (hr : ∀ (nm : List Str) (data : Str) (sr : SR F), NotLocal nm →
      Run.All (fun res => res.1.local_ = sr.local_) (r nm data sr)) :
    Run.All (fun res => res.1.local_ = sr.local_)
      (sectionStep E r secName secData o c sr) := by
  unfold sectionStep
  refine Run.All.bindI fun name _ => Run.All.bindI fun body _ => Run.All.bindI fun top htop => ?_
  have hno := hn.append name
  refine Run.All.iteI (fun _ => ?_) fun _ => Run.All.iteI (fun _ => ?_) fun _ =>
    Run.All.iteI (fun h => ?_) fun _ => Run.All.retI rfl
  · exact parseWKTProjCS_local E r _ body sr fun data sr1 => hr _ data sr1 hno
  · exact (parseWKTGeoCS_local E r _ body _ fun data sr1 => hr _ data sr1 hno).mono
      fun res h => h
  · exact absurd h (hno.top_ne top htop)

theorem sectionLoop_local (E : Float64 F) (r : Section F) (secName : List Str)
    (secData : Str) (hn : NotLocal secName)
    (hr : ∀ (nm : List Str) (data : Str) (sr : SR F), NotLocal nm →
      Run.All (fun res => res.1.local_ = sr.local_) (r nm data sr)) :
    ∀ (os cs : List Nat) (sr : SR F),
      Run.All (fun res => res.1.local_ = sr.local_)
        (sectionLoop E r secName secData os cs sr) := by
  intro os
  induction os with
  | nil => intro cs sr; exact Run.All.retI rfl
  | cons o os ih =>
    intro cs sr
    cases cs with
    | nil => exact Run.All.panicI _
    | cons c cs =>
      rw [sectionLoop_cons]
      refine Run.All.bindI fun res hres => ?_
      have hstep := sectionStep_local E r secName secData o c sr hn hr res hres
      cases hr2 : res.2 with
      | some err => exact Run.All.retI hstep
      | none => exact (ih cs res.1).mono fun res1 h => h.trans hstep

theorem parseWKTSection_local (E : Float64 F) :
    ∀ (n : Nat) (secName : List Str) (secData : Str) (sr : SR F), NotLocal secName →
      Run.All (fun res => res.1.local_ = sr.local_)
        (parseWKTSection E n secName secData sr) := by
  intro n
  induction n with
  | zero => intro secName secData sr _; exact Run.All.exhaustedI
  | succ n ih =>
    intro secName secData sr hn
    rw [parseWKTSection_succ]
    exact Run.All.iteI (fun _ => Run.All.retI rfl)
      fun _ => sectionLoop_local E _ secName secData hn ih _ _ sr

theorem sectionStep_top (E : Float64 F) (r : Section F) (text : Str) (o c : Nat)
    (sr : SR F)
    (hr : ∀ (nm : List Str) (data : Str) (sr : SR F), NotLocal nm →
      Run.All (fun res => res.1.local_ = sr.local_) (r nm data sr)) :
    Run.All (fun res => ∃ name, sectionName text o = .ret name ∧
        (res.2 = none → name = "PROJCS".toList ∨ name = geographicKeyword ∨
          name = "LOCAL_CS".toList) ∧
        (res.1.local_ = true ↔ sr.local_ = true ∨ name = "LOCAL_CS".toList))
      (sectionStep E r [] text o c sr) := by
  unfold sectionStep
  refine Run.All.bindI fun name hname => Run.All.bindI fun body _ =>
    Run.All.bindI fun top htop => ?_
  have ht : top = name := by
    have : (Run.ret name : Run Str) = .ret top := htop
    cases this; rfl
  subst ht
  refine Run.All.iteI (fun h1 => ?_) fun h1 => Run.All.iteI (fun h2 => ?_) fun h2 =>
    Run.All.iteI (fun h3 => ?_) fun h3 => Run.All.retI ?_
  · have hnl : NotLocal ([] ++ [top]) := ⟨top, [], rfl, by rw [h1]; decide⟩
    have hne : top ≠ "LOCAL_CS".toList := by rw [h1]; decide
    refine (parseWKTProjCS_local E r _ body sr fun data sr1 => hr _ data sr1 hnl).mono
      fun res h => ⟨top, hname, fun _ => Or.inl h1, ?_⟩
    rw [h]; exact ⟨Or.inl, fun hh => hh.elim id (fun e => absurd e hne)⟩
  · have hnl : NotLocal ([] ++ [top]) := ⟨top, [], rfl, by rw [h2]; decide⟩
    have hne : top ≠ "LOCAL_CS".toList := by rw [h2]; decide
    refine (parseWKTGeoCS_local E r _ body _ fun data sr1 => hr _ data sr1 hnl).mono
      fun res h => ⟨top, hname, fun _ => Or.inr (Or.inl h2), ?_⟩
    have h' : res.1.local_ = sr.local_ := h
    rw [h']; exact ⟨Or.inl, fun hh => hh.elim id (fun e => absurd e hne)⟩
  · exact Run.All.retI ⟨top, hname, fun _ => Or.inr (Or.inr h3),
      ⟨fun _ => Or.inr h3, fun _ => rfl⟩⟩
  · exact ⟨top, hname, fun h => (by cases h),
      ⟨Or.inl, fun hh => hh.elim id (fun e => absurd e h3)⟩⟩

theorem sectionLoop_top (E : Float64 F) (r : Section F) (text : Str)
    (hr : ∀ (nm : List Str) (data : Str) (sr : SR F), NotLocal nm →
      Run.All (fun res => res.1.local_ = sr.local_) (r nm data sr)) :
    ∀ (os cs : List Nat) (sr : SR F),
      Run.All (fun res => res.2 = none →
          (∀ o, o ∈ os → ∃ name, sectionName text o = .ret name ∧
            (name = "PROJCS".toList ∨ name = geographicKeyword ∨
              name = "LOCAL_CS".toList)) ∧
          (res.1.local_ = true ↔ sr.local_ = true ∨
            ∃ o, o ∈ os ∧ sectionName text o = .ret "LOCAL_CS".toList))
        (sectionLoop E r [] text os cs sr) := by
  intro os
  induction os with
  | nil =>
    intro cs sr
    exact Run.All.retI fun _ => ⟨fun o ho => by simp at ho, by simp⟩
  | cons o os ih =>
    intro cs sr
    cases cs with
    | nil => exact Run.All.panicI _
    | cons c cs =>
      rw [sectionLoop_cons]
      refine Run.All.bindI fun res hres => ?_
      obtain ⟨name, hname, hkey, hloc⟩ := sectionStep_top E r text o c sr hr res hres
      cases hr2 : res.2 with
      | some err => exact Run.All.retI fun h => by simp at h
      | none =>
        refine (ih cs res.1).mono fun res1 h hnone => ?_
        obtain ⟨hall, hiff⟩ := h hnone
        refine ⟨?_, ?_⟩
        · intro o1 ho1
          rcases List.mem_cons.mp ho1 with e | e
          · subst e; exact ⟨name, hname, hkey hr2⟩
          · exact hall o1 e
        · rw [hiff, hloc]
          constructor
          · rintro ((h1 | h1) | ⟨o1, ho1, h1⟩)
            · exact Or.inl h1
            · exact Or.inr ⟨o, by simp, by rw [hname, h1]⟩
            · exact Or.inr ⟨o1, by simp [ho1], h1⟩
          · rintro (h1 | ⟨o1, ho1, h1⟩)
            · exact Or.inl (Or.inl h1)
            · rcases List.mem_cons.mp ho1 with e | e
              · subst e
                rw [hname] at h1
                exact Or.inl (Or.inr (Run.ret.inj h1))
              · exact Or.inr ⟨o1, e, h1⟩

/-- C11 (as stated, refuted). `wkt` returns no error on the empty input, which
has no bracketed section, and on `LOCAL_CS[a],PROJCS["n",PROJECTION["x"]]`,
which has two top-level sections; on the latter `local` is true although
`Name` is not `identity`. -/
theorem wkt_accepts_no_or_two_sections :
    (findWKTSections "".toList).1 = [] ∧
    wkt intFloat64 zeroSR "".toList = .ret (zeroSR, none) ∧
    (findWKTSections "LOCAL_CS[a],PROJCS[\"n\",PROJECTION[\"x\"]]".toList).1 = [8, 18] ∧
    wkt intFloat64 zeroSR "LOCAL_CS[a],PROJCS[\"n\",PROJECTION[\"x\"]]".toList =
      .ret ({ zeroSR with SRSCode := "\"n\"".toList, Name := "\"x\"".toList,
                          local_ := true }, none) := by
  decide

/-- C11 (amended). When `wkt` returns no error, every top-level section of the
input, of which there may be none or several, is named `PROJCS`, `LOCAL_CS` or
the geographic keyword of the top-level switch; `local` is true in the record
exactly when it was true in `newSR()` or one of these sections is named
`LOCAL_CS`; and when the input has exactly one top-level section and `local`
is false in `newSR()`, the record has `local` true and `Name` equal to
`identity` exactly when that section is named `LOCAL_CS`. -/
theorem wkt_success_sections (E : Float64 F) (newSR : SR F) (text : Str) (sr : SR F)
    (h : wkt E newSR text = .ret (sr, none)) :
    (∀ o, o ∈ (findWKTSections text).1 → ∃ name, sectionName text o = .ret name ∧
      (name = "PROJCS".toList ∨ name = geographicKeyword ∨ name = "LOCAL_CS".toList)) ∧
    (sr.local_ = true ↔ newSR.local_ = true ∨
      ∃ o, o ∈ (findWKTSections text).1 ∧ sectionName text o = .ret "LOCAL_CS".toList) ∧
    (∀ o c, findWKTSections text = ([o], [c]) → newSR.local_ = false →
      ((sr.local_ = true ∧ sr.Name = "identity".toList) ↔
        sectionName text o = .ret "LOCAL_CS".toList)) := by
  have h0 := h
  unfold wkt at h
  rw [parseWKTSection_succ] at h
  by_cases hl : (findWKTSections text).1.length ≠ (findWKTSections text).2.length
  · rw [if_pos hl] at h; cases h
  · rw [if_neg hl] at h
    obtain ⟨hall, hiff⟩ := sectionLoop_top E _ text
      (fun nm data sr1 hn => parseWKTSection_local E text.length nm data sr1 hn)
      _ _ newSR _ h rfl
    refine ⟨hall, hiff, ?_⟩
    intro o c hoc hnew
    constructor
    · rintro ⟨hloc, _⟩
      rcases hiff.mp hloc with h1 | ⟨o1, ho1, h1⟩
      · rw [hnew] at h1; cases h1
      · rw [hoc] at ho1
        have : o1 = o := by simpa using ho1
        rw [← this]; exact h1
    · intro hn
      have hw := wkt_single_local_cs E newSR text o c hoc hn
      rw [h0] at hw
      have e : sr = { newSR with Name := "identity".toList, local_ := true } :=
        (Prod.mk.inj (Run.ret.inj hw)).1
      rw [e]
      exact ⟨rfl, rfl⟩

theorem wkt_success_sections_witness :
    wkt intFloat64 zeroSR "LOCAL_CS[a],PROJCS[\"n\",PROJECTION[\"x\"]]".toList =
      .ret ({ zeroSR with SRSCode := "\"n\"".toList, Name := "\"x\"".toList,
                          local_ := true }, none) ∧
    ∀ o, o ∈ (findWKTSections "LOCAL_CS[a],PROJCS[\"n\",PROJECTION[\"x\"]]".toList).1 →
      ∃ name, sectionName "LOCAL_CS[a],PROJCS[\"n\",PROJECTION[\"x\"]]".toList o =
          .ret name ∧
        (name = "PROJCS".toList ∨ name = geographicKeyword ∨ name = "LOCAL_CS".toList) :=
  ⟨by decide, (wkt_success_sections intFloat64 zeroSR
    "LOCAL_CS[a],PROJCS[\"n\",PROJECTION[\"x\"]]".toList
    { zeroSR with SRSCode := "\"n\"".toList, Name := "\"x\"".toList, local_ := true }
    (by decide)).1⟩

end Proj
